import Mathlib

/-!
Verification development for the Meta_mask_test escrow/forwarding service.

The repository ships two variants of the transaction pipeline:

* the serverless variant (`api/transaction.js`, `api/verify.js`): intake with a
  single `escrowTxHash`, a per-request processing pass (STEP 1 verify escrow,
  STEP 2 forward minus fee, STEP 3 verify forward), in-memory store capped at
  50 records, `setTimeout`-based deletion of terminal records;
* the legacy file-backed variant (`server.js`): intake with `feeTxHash` and
  `mainTxHash`, a periodic `processTransactions` worker, store capped at 1000.

Both are embedded below as pure functions.  Blockchain RPC interactions
(receipt lookup, block height, broadcast outcome) are supplied per pass as
oracle inputs (`ChainView`, `Broadcast`); the step functions mirror the
JavaScript control flow over those inputs.  JavaScript numbers are modelled as
exact rationals (ℚ); timestamps are natural numbers counted in seconds, so the
`setTimeout` delays 60000 ms and 300000 ms appear as 60 and 300.  Each pass
additionally emits a log (`PassLog`, `SPassLog`) recording, without influencing
the state, which classifications were performed, whether the forwarder was
invoked, which value was handed to `sendTransaction`, and which deletion timers
were scheduled.
-/

namespace MetaMask

/-- Transaction `status` strings used by both variants.  `forwarding` is the
transient value set by `verify.js` immediately before calling
`forwardToDestination`. -/
inductive Status where
  | pending
  | verified
  | forwarding
  | forwardingPending
  | completed
  | failed
deriving DecidableEq

/-- An on-chain transaction receipt as consumed by `verifyTransaction`:
`status` is the execution-success flag (0 = reverted) and `blockNumber` the
inclusion height. -/
structure Receipt where
  status : Nat
  blockNumber : Int
deriving DecidableEq

/-- Outcome of one RPC call: a value, or a thrown transport error. -/
inductive RpcResult (α : Type) where
  | ok (value : α)
  | err (msg : String)
deriving DecidableEq

/-- The blockchain as seen through the provider during one sequence of RPC
calls: `getTransactionReceipt` (null when not mined) and `getBlockNumber`. -/
structure ChainView where
  receiptOf : String → RpcResult (Option Receipt)
  currentBlock : RpcResult Int

/-- `CONFIG.VERIFICATION_CONFIRMATIONS` (both variants): 3. -/
def VERIFICATION_CONFIRMATIONS : Int := 3

/-- `CONFIG.FEE_PERCENTAGE` (`api/verify.js`): 1. -/
def FEE_PERCENTAGE : ℚ := 1

/-- The object returned by `verifyTransaction` in both `api/verify.js` and
`server.js`: its `status` field together with the data relevant to each case.
The JavaScript `verified` boolean is true exactly on the `verified`
constructor. -/
inductive VerifyResult where
  | pending
  | failed (receipt : Receipt)
  | verified (confirmations : Int) (receipt : Receipt)
  | confirming (confirmations : Int) (receipt : Receipt)
  | error (msg : String)
deriving DecidableEq

/-- The `verified` boolean of the returned object. -/
def VerifyResult.isVerified : VerifyResult → Bool
  | .verified _ _ => true
  | _ => false

/-- Whether the returned `status` field is the string `failed`. -/
def VerifyResult.isFailed : VerifyResult → Bool
  | .failed _ => true
  | _ => false

/-- Whether the returned `status` field is the string `error`. -/
def VerifyResult.isError : VerifyResult → Bool
  | .error _ => true
  | _ => false

/-- `verifyTransaction(txHash)` from `api/verify.js` lines 31-62 (identical in
`server.js` lines 75-102): no receipt ⇒ `pending`; `receipt.status === 0` ⇒
`failed`; otherwise `confirmations = currentBlock - receipt.blockNumber`, and
`verified` iff `confirmations >= CONFIG.VERIFICATION_CONFIRMATIONS`, else
`confirming`.  Any thrown RPC error is caught and reported as `error`. -/
def verifyTransaction (chain : ChainView) (txHash : String) : VerifyResult :=
  match chain.receiptOf txHash with
  | .err e => .error e
  | .ok none => .pending
  | .ok (some receipt) =>
    if receipt.status = 0 then
      .failed receipt
    else
      match chain.currentBlock with
      | .err e => .error e
      | .ok currentBlock =>
        let confirmations := currentBlock - receipt.blockNumber
        if VERIFICATION_CONFIRMATIONS ≤ confirmations then
          .verified confirmations receipt
        else
          .confirming confirmations receipt

theorem verifyTransaction_verified_threshold {chain : ChainView} {h : String}
    {n : Int} {r : Receipt} (hv : verifyTransaction chain h = .verified n r) :
    VERIFICATION_CONFIRMATIONS ≤ n := by
  unfold verifyTransaction at hv
  split at hv
  · exact absurd hv (by simp)
  · exact absurd hv (by simp)
  · split at hv
    · exact absurd hv (by simp)
    · split at hv
      · exact absurd hv (by simp)
      · dsimp only at hv
        split at hv
        · rename_i hle
          obtain ⟨hn, _⟩ := VerifyResult.verified.injEq .. ▸ hv
          exact hn ▸ hle
        · exact absurd hv (by simp)

/-- Claim C9: `verifyTransaction` returns `pending` when no receipt exists,
`failed` when the receipt reports on-chain execution failure, `verified` with
confirmation count `n = currentBlock - receipt.blockNumber` when `n ≥ 3`,
`confirming` with `n` when `n < 3`, and `error` when either RPC lookup throws.
(It is pure: by its type it takes no transaction record and mutates
nothing.) -/
theorem C9_classify_cases (chain : ChainView) (h : String) :
    (chain.receiptOf h = .ok none → verifyTransaction chain h = .pending) ∧
    (∀ r, chain.receiptOf h = .ok (some r) → r.status = 0 →
      verifyTransaction chain h = .failed r) ∧
    (∀ r cb, chain.receiptOf h = .ok (some r) → r.status ≠ 0 →
      chain.currentBlock = .ok cb →
      VERIFICATION_CONFIRMATIONS ≤ cb - r.blockNumber →
      verifyTransaction chain h = .verified (cb - r.blockNumber) r) ∧
    (∀ r cb, chain.receiptOf h = .ok (some r) → r.status ≠ 0 →
      chain.currentBlock = .ok cb →
      cb - r.blockNumber < VERIFICATION_CONFIRMATIONS →
      verifyTransaction chain h = .confirming (cb - r.blockNumber) r) ∧
    (∀ e, chain.receiptOf h = .err e → verifyTransaction chain h = .error e) ∧
    (∀ r e, chain.receiptOf h = .ok (some r) → r.status ≠ 0 →
      chain.currentBlock = .err e → verifyTransaction chain h = .error e) := by
  refine ⟨?_, ?_, ?_, ?_, ?_, ?_⟩
  · intro hr
    simp [verifyTransaction, hr]
  · intro r hr h0
    simp [verifyTransaction, hr, h0]
  · intro r cb hr h0 hcb hge
    simp [verifyTransaction, hr, h0, hcb, hge]
  · intro r cb hr h0 hcb hlt
    simp [verifyTransaction, hr, h0, hcb, not_le.mpr hlt]
  · intro e hr
    simp [verifyTransaction, hr]
  · intro r e hr h0 hcb
    simp [verifyTransaction, hr, h0, hcb]

/-- A concrete chain for the C9 witness: hash `0xE` has a successful receipt
at height 5 and the current height is 9. -/
def chainW : ChainView where
  receiptOf := fun h => if h = "0xE" then .ok (some ⟨1, 5⟩) else .ok none
  currentBlock := .ok 9

theorem C9_witness :
    verifyTransaction chainW "0xE" = .verified 4 ⟨1, 5⟩ := by
  have hc := (C9_classify_cases chainW "0xE").2.2.1 ⟨1, 5⟩ 9
    (by simp [chainW]) (by decide) rfl (by decide)
  simpa using hc

/-! ## Serverless variant (`api/transaction.js`, `api/verify.js`) -/

/-- The transaction record of the serverless variant.  Fields are exactly the
ones written by `api/transaction.js` and `api/verify.js`; optional fields are
absent (`none`) until the corresponding code path sets them.  Amounts are
exact rationals, timestamps are seconds. -/
structure TxRecord where
  id : String
  senderAddress : String
  destinationAddress : String
  amount : ℚ
  escrowTxHash : String
  forwardTxHash : Option String := none
  forwardedAmount : Option ℚ := none
  feeKept : Option ℚ := none
  status : Status
  receivedAt : Option Nat := none
  verifiedAt : Option Nat := none
  forwardInitiatedAt : Option Nat := none
  completedAt : Option Nat := none
  failedAt : Option Nat := none
  error : Option String := none
  escrowVerification : Option VerifyResult := none
  forwardVerification : Option VerifyResult := none
deriving DecidableEq

/-- Outcome of the wallet interaction inside `forwardToDestination` /
`sendToDestination`, supplied as an oracle: the signing wallet may be
unconfigured (`initializeWallet` returns null), the broadcast plus `tx.wait()`
may succeed with a hash, or `sendTransaction`/`wait` may throw. -/
inductive Broadcast where
  | notConfigured
  | accepted (txHash : String)
  | rejected (msg : String)
deriving DecidableEq

/-- `forwardAmount` of `api/verify.js` line 74: the original amount minus the
fee. -/
def forwardValue (amount : ℚ) : ℚ :=
  amount - amount * (FEE_PERCENTAGE / 100)

/-- `feeAmount` of `api/verify.js` line 73. -/
def forwardFee (amount : ℚ) : ℚ :=
  amount * (FEE_PERCENTAGE / 100)

/-- Result object of `forwardToDestination` (`api/verify.js` lines 91-104). -/
inductive ForwardOutcome where
  | ok (txHash : String) (forwardedAmount feeKept : ℚ)
  | fail (msg : String)
deriving DecidableEq

/-- `forwardToDestination(transaction)` from `api/verify.js` lines 64-106:
fails fast when the escrow wallet is not configured; otherwise computes
`feeAmount = amount * (FEE_PERCENTAGE / 100)` and
`forwardAmount = amount - feeAmount`, broadcasts `forwardAmount`, and on
success returns the hash together with `forwardedAmount` and `feeKept`. -/
def forwardToDestination (b : Broadcast) (tx : TxRecord) : ForwardOutcome :=
  match b with
  | .notConfigured => .fail "Escrow wallet not configured"
  | .rejected msg => .fail msg
  | .accepted h => .ok h (forwardValue tx.amount) (forwardFee tx.amount)

/-- The value handed to `wallet.sendTransaction` when `forwardToDestination`
reaches the broadcast (none when the wallet check throws first). -/
def attemptedValue (b : Broadcast) (amount : ℚ) : Option ℚ :=
  match b with
  | .notConfigured => none
  | _ => some (forwardValue amount)

/-- Oracle inputs for one POST to `api/verify.js`: the chain as observed by
the escrow-hash classification (STEP 1), the chain as observed by the
forward-hash classification (STEP 3), and the wallet/broadcast outcome used
if STEP 2 runs. -/
structure PassEnv where
  escrowChain : ChainView
  forwardChain : ChainView
  broadcast : Broadcast

/-- Observation log of one processing pass (output-only; it never feeds back
into the state): the escrow classification, the forward classification when
STEP 3 performed one, whether `forwardToDestination` was invoked, the value
handed to `sendTransaction`, and the absolute due times of the `setTimeout`
deletions scheduled during the pass. -/
structure PassLog where
  escrowResult : VerifyResult
  forwardResult : Option VerifyResult
  forwardInvoked : Bool
  sentValue : Option ℚ
  scheduled : List Nat
deriving DecidableEq

/-- STEP 1 of the `api/verify.js` handler (lines 141-167): promote a pending
record whose escrow hash verified, and mark the record failed (scheduling a
300 s deletion) when the escrow classification is `failed`. -/
def step1 (escrowV : VerifyResult) (now : Nat) (tx0 : TxRecord) :
    TxRecord × List Nat :=
  let tx1 :=
    if escrowV.isVerified = true ∧ tx0.status = .pending then
      { tx0 with status := .verified, verifiedAt := some now,
                 escrowVerification := some escrowV }
    else tx0
  if escrowV.isFailed = true then
    ({ tx1 with status := .failed,
                error := some "Escrow transaction failed on blockchain",
                failedAt := some now },
     [now + 300])
  else (tx1, [])

/-- STEP 2 of the `api/verify.js` handler (lines 172-205): when the status is
`verified` and no forward hash exists yet, set the transient `forwarding`
status and invoke `forwardToDestination`; on success record the forward hash
and amounts and move to `forwarding_pending`, on failure move to `failed` and
schedule a 300 s deletion.  Returns (record, invoked?, sent value, scheduled
deletions). -/
def step2 (b : Broadcast) (now : Nat) (tx0 : TxRecord) :
    TxRecord × Bool × Option ℚ × List Nat :=
  if tx0.status = .verified ∧ tx0.forwardTxHash = none then
    let txF := { tx0 with status := Status.forwarding }
    match forwardToDestination b txF with
    | .ok h fwd fee =>
        ({ txF with status := .forwardingPending,
                    forwardTxHash := some h,
                    forwardedAmount := some fwd,
                    feeKept := some fee,
                    forwardInitiatedAt := some now },
         true, attemptedValue b tx0.amount, [])
    | .fail e =>
        ({ txF with status := .failed, error := some e,
                    failedAt := some now },
         true, attemptedValue b tx0.amount, [now + 300])
  else (tx0, false, none, [])

/-- STEP 3 of the `api/verify.js` handler (lines 210-252): when a forward hash
exists and the status is `forwarding_pending`, classify the forward hash; on
`verified` move to `completed` and schedule a 60 s deletion; on `failed` move
to `failed` — note the source schedules no deletion in that branch. -/
def step3 (chain : ChainView) (now : Nat) (tx0 : TxRecord) :
    TxRecord × Option VerifyResult × List Nat :=
  match tx0.forwardTxHash with
  | none => (tx0, none, [])
  | some h =>
    if tx0.status = .forwardingPending then
      let fwdV := verifyTransaction chain h
      let p1 :=
        if fwdV.isVerified = true then
          ({ tx0 with status := Status.completed,
                      forwardVerification := some fwdV,
                      completedAt := some now },
           [now + 60])
        else (tx0, ([] : List Nat))
      let tx2 :=
        if fwdV.isFailed = true then
          { p1.1 with status := Status.failed,
                      error := some "Forward transaction failed on blockchain",
                      failedAt := some now }
        else p1.1
      (tx2, some fwdV, p1.2)
    else (tx0, none, [])

/-- One full processing pass of the `api/verify.js` POST handler on one
transaction record: STEP 1, STEP 2, STEP 3 in source order, plus the pass
log. -/
def stepVerify (env : PassEnv) (now : Nat) (tx0 : TxRecord) :
    TxRecord × PassLog :=
  let escrowV := verifyTransaction env.escrowChain tx0.escrowTxHash
  let r1 := step1 escrowV now tx0
  let r2 := step2 env.broadcast now r1.1
  let r3 := step3 env.forwardChain now r2.1
  (r3.1,
   { escrowResult := escrowV, forwardResult := r3.2.1,
     forwardInvoked := r2.2.1, sentValue := r2.2.2.1,
     scheduled := r1.2 ++ r2.2.2.2 ++ r3.2.2 })

/-- A sequence of processing passes on one record, with the pass environments
and wall-clock times given per pass. -/
def runVerify : TxRecord → List (PassEnv × Nat) → TxRecord × List PassLog
  | tx, [] => (tx, [])
  | tx, (env, now) :: rest =>
    let r := stepVerify env now tx
    let rr := runVerify r.1 rest
    (rr.1, r.2 :: rr.2)

/-! ## Legacy file-backed variant (`server.js`) -/

/-- The transaction record of the legacy variant: intake requires `feeTxHash`
and `mainTxHash`; the forward hash field is `finalTxHash`. -/
structure STxRecord where
  id : String
  senderAddress : String
  destinationAddress : String
  amount : ℚ
  feeTxHash : String
  mainTxHash : String
  finalTxHash : Option String := none
  status : Status
  receivedAt : Option Nat := none
  verifiedAt : Option Nat := none
  completedAt : Option Nat := none
  failedAt : Option Nat := none
  error : Option String := none
  feeVerification : Option VerifyResult := none
  mainVerification : Option VerifyResult := none
deriving DecidableEq

/-- Result object of `sendToDestination` (`server.js` lines 126-137): unlike
`forwardToDestination` it carries no amounts. -/
inductive SendOutcome where
  | ok (txHash : String)
  | fail (msg : String)
deriving DecidableEq

/-- `sendToDestination(transaction)` from `server.js` lines 105-139: fails
when the admin wallet is unconfigured, otherwise broadcasts
`parseEther(transaction.amount)` — the full amount, no fee computation — and
returns the hash on success. -/
def sendToDestination (b : Broadcast) : SendOutcome :=
  match b with
  | .notConfigured => .fail "Admin wallet not configured"
  | .rejected msg => .fail msg
  | .accepted h => .ok h

/-- The value handed to `wallet.sendTransaction` by `sendToDestination` when
the wallet check passes: the full `transaction.amount`. -/
def attemptedValueServer (b : Broadcast) (amount : ℚ) : Option ℚ :=
  match b with
  | .notConfigured => none
  | _ => some amount

/-- Oracle inputs for one `processTransactions` visit of one record. -/
structure SPassEnv where
  feeChain : ChainView
  mainChain : ChainView
  broadcast : Broadcast

/-- Observation log of one `processTransactions` visit: every classification
performed during the visit as (hash, result) pairs, whether
`sendToDestination` was invoked, and the value handed to
`sendTransaction`. -/
structure SPassLog where
  classified : List (String × VerifyResult)
  sendInvoked : Bool
  sentValue : Option ℚ
deriving DecidableEq

/-- One visit of the `processTransactions` worker (`server.js` lines 147-203)
to one record: skip terminal records; classify `feeTxHash` and `mainTxHash`;
when both verify, promote `pending` to `verified`, then, if the status is
`verified` and `finalTxHash` is unset, invoke `sendToDestination` and mark
the record `completed` (broadcast success) or `failed` (broadcast failure);
when either classification is `failed`, mark the record `failed`. -/
def stepServer (env : SPassEnv) (now : Nat) (tx0 : STxRecord) :
    STxRecord × SPassLog :=
  if tx0.status = .completed ∨ tx0.status = .failed then
    (tx0, { classified := [], sendInvoked := false, sentValue := none })
  else
    let feeV := verifyTransaction env.feeChain tx0.feeTxHash
    let mainV := verifyTransaction env.mainChain tx0.mainTxHash
    let cls := [(tx0.feeTxHash, feeV), (tx0.mainTxHash, mainV)]
    if feeV.isVerified = true ∧ mainV.isVerified = true then
      let tx1 :=
        if tx0.status = .pending then
          { tx0 with status := Status.verified, verifiedAt := some now,
                     feeVerification := some feeV,
                     mainVerification := some mainV }
        else tx0
      if tx1.status = .verified ∧ tx1.finalTxHash = none then
        match sendToDestination env.broadcast with
        | .ok h =>
            ({ tx1 with status := .completed, finalTxHash := some h,
                        completedAt := some now },
             { classified := cls, sendInvoked := true,
               sentValue := attemptedValueServer env.broadcast tx1.amount })
        | .fail e =>
            ({ tx1 with status := .failed, error := some e,
                        failedAt := some now },
             { classified := cls, sendInvoked := true,
               sentValue := attemptedValueServer env.broadcast tx1.amount })
      else
        (tx1, { classified := cls, sendInvoked := false, sentValue := none })
    else if feeV.isFailed = true ∨ mainV.isFailed = true then
      ({ tx0 with status := .failed,
                  error := some "One or more blockchain transactions failed",
                  failedAt := some now },
       { classified := cls, sendInvoked := false, sentValue := none })
    else
      (tx0, { classified := cls, sendInvoked := false, sentValue := none })

/-- A sequence of worker visits to one legacy record. -/
def runServer : STxRecord → List (SPassEnv × Nat) → STxRecord × List SPassLog
  | tx, [] => (tx, [])
  | tx, (env, now) :: rest =>
    let r := stepServer env now tx
    let rr := runServer r.1 rest
    (rr.1, r.2 :: rr.2)

/-! ## Intake (`api/transaction.js` and `server.js` POST /api/transaction) -/

/-- An intake payload for the serverless variant.  JavaScript truthiness of
the validated fields is modelled as: a string field is missing iff it is
empty, the numeric `amount` is missing iff absent, and falsy iff absent or
equal to 0. -/
structure IntakeRequest where
  senderAddress : String
  destinationAddress : String
  amount : Option ℚ
  escrowTxHash : String
deriving DecidableEq

/-- JavaScript falsiness of the `amount` field (`!transaction.amount`). -/
def amountFalsy : Option ℚ → Bool
  | none => true
  | some q => decide (q = 0)

/-- Intake handler of `api/transaction.js` lines 19-55: reject when any of
`senderAddress`, `destinationAddress`, `amount`, `escrowTxHash` is falsy;
otherwise assign the generated id, stamp `receivedAt`, set `status` to
`pending`, unshift into the store, and truncate the store to the newest 50
records. -/
def intakeServerless (req : IntakeRequest) (genId : String) (now : Nat)
    (store : List TxRecord) : Option (TxRecord × List TxRecord) :=
  if req.senderAddress = "" ∨ req.destinationAddress = "" ∨
     amountFalsy req.amount = true ∨ req.escrowTxHash = "" then
    none
  else
    let tx : TxRecord :=
      { id := genId, senderAddress := req.senderAddress,
        destinationAddress := req.destinationAddress,
        amount := req.amount.getD 0, escrowTxHash := req.escrowTxHash,
        status := .pending, receivedAt := some now }
    let store1 := tx :: store
    let store2 := if 50 < store1.length then store1.take 50 else store1
    some (tx, store2)

/-- An intake payload for the legacy variant.  `server.js` copies the client
body verbatim and, unlike `api/transaction.js`, never assigns `status`; the
client-supplied status therefore travels into the store unchanged and is
carried here as a field. -/
structure LegacyIntakeRequest where
  senderAddress : String
  destinationAddress : String
  amount : Option ℚ
  feeTxHash : String
  mainTxHash : String
  status : Status
deriving DecidableEq

/-- Intake handler of `server.js` lines 226-256: reject when any of
`senderAddress`, `destinationAddress`, `amount`, `feeTxHash`, `mainTxHash` is
falsy; otherwise assign the generated id, stamp `receivedAt`, unshift into
the store, and truncate the store to the newest 1000 records. -/
def intakeServer (req : LegacyIntakeRequest) (genId : String) (now : Nat)
    (store : List STxRecord) : Option (STxRecord × List STxRecord) :=
  if req.senderAddress = "" ∨ req.destinationAddress = "" ∨
     amountFalsy req.amount = true ∨ req.feeTxHash = "" ∨
     req.mainTxHash = "" then
    none
  else
    let tx : STxRecord :=
      { id := genId, senderAddress := req.senderAddress,
        destinationAddress := req.destinationAddress,
        amount := req.amount.getD 0, feeTxHash := req.feeTxHash,
        mainTxHash := req.mainTxHash, status := req.status,
        receivedAt := some now }
    let store1 := tx :: store
    let store2 := if 1000 < store1.length then store1.take 1000 else store1
    some (tx, store2)

/-! ## Helper lemmas about the verifier outcomes -/

theorem VerifyResult.isVerified_iff {v : VerifyResult} :
    v.isVerified = true ↔ ∃ n r, v = .verified n r := by
  cases v <;> simp [VerifyResult.isVerified]

theorem VerifyResult.not_verified_of_isError {v : VerifyResult}
    (h : v.isError = true) : v.isVerified = false := by
  cases v <;> simp_all [VerifyResult.isError, VerifyResult.isVerified]

theorem VerifyResult.not_failed_of_isError {v : VerifyResult}
    (h : v.isError = true) : v.isFailed = false := by
  cases v <;> simp_all [VerifyResult.isError, VerifyResult.isFailed]

theorem VerifyResult.not_failed_of_isVerified {v : VerifyResult}
    (h : v.isVerified = true) : v.isFailed = false := by
  cases v <;> simp_all [VerifyResult.isVerified, VerifyResult.isFailed]

/-! ## Theorems: intake (C10, C7) -/

/-- Claim C10: after every successful intake the store holds at most the cap
(50 serverless, 1000 file-backed): the new store is exactly the newest-first
list truncated at the cap, a purely positional rule that never inspects
`status`, so records beyond the cap — terminal or not — are silently
discarded. -/
theorem C10_store_cap
    (req : IntakeRequest) (genId : String) (now : Nat) (store : List TxRecord)
    (tx : TxRecord) (store' : List TxRecord)
    (hs : intakeServerless req genId now store = some (tx, store'))
    (lreq : LegacyIntakeRequest) (lId : String) (lnow : Nat)
    (lstore : List STxRecord) (ltx : STxRecord) (lstore' : List STxRecord)
    (hl : intakeServer lreq lId lnow lstore = some (ltx, lstore')) :
    store' = (tx :: store).take 50 ∧ store'.length ≤ 50 ∧
    lstore' = (ltx :: lstore).take 1000 ∧ lstore'.length ≤ 1000 := by
  unfold intakeServerless at hs
  unfold intakeServer at hl
  split at hs
  · exact absurd hs (by simp)
  · split at hl
    · exact absurd hl (by simp)
    · obtain ⟨htx, hst⟩ := Prod.mk.injEq .. ▸ Option.some.injEq .. ▸ hs
      obtain ⟨hltx, hlst⟩ := Prod.mk.injEq .. ▸ Option.some.injEq .. ▸ hl
      subst htx hltx
      constructor
      · rw [← hst]
        split
        · rfl
        · rename_i hle
          exact (List.take_of_length_le (by omega)).symm
      refine ⟨?_, ?_, ?_⟩
      · rw [← hst]
        split
        · simp [List.length_take]
        · rename_i hle
          omega
      · rw [← hlst]
        split
        · rfl
        · rename_i hle
          exact (List.take_of_length_le (by omega)).symm
      · rw [← hlst]
        split
        · simp [List.length_take]
        · rename_i hle
          omega

/-- A full serverless store for the C10 witness: 49 copies of one record and,
oldest, one still-pending record that the next intake will evict. -/
def recOldA : TxRecord :=
  { id := "tx_old", senderAddress := "0xA", destinationAddress := "0xB",
    amount := 2, escrowTxHash := "0xEA", status := .completed }

def recOldPending : TxRecord :=
  { id := "tx_inflight", senderAddress := "0xC", destinationAddress := "0xD",
    amount := 3, escrowTxHash := "0xEC", status := .pending }

def storeFullW : List TxRecord := List.replicate 49 recOldA ++ [recOldPending]

def reqW : IntakeRequest :=
  { senderAddress := "0xA", destinationAddress := "0xB", amount := some 1,
    escrowTxHash := "0xE1" }

def txW : TxRecord :=
  { id := "tx_w", senderAddress := "0xA", destinationAddress := "0xB",
    amount := 1, escrowTxHash := "0xE1", status := .pending,
    receivedAt := some 7 }

def lreqW : LegacyIntakeRequest :=
  { senderAddress := "0xA", destinationAddress := "0xB", amount := some 1,
    feeTxHash := "0xF1", mainTxHash := "0xM1", status := .pending }

def ltxW : STxRecord :=
  { id := "ltx_w", senderAddress := "0xA", destinationAddress := "0xB",
    amount := 1, feeTxHash := "0xF1", mainTxHash := "0xM1",
    status := .pending, receivedAt := some 7 }

theorem C10_witness :
    ((txW :: storeFullW).take 50 = (txW :: storeFullW).take 50 ∧
      ((txW :: storeFullW).take 50).length ≤ 50 ∧
      (ltxW :: []).take 1000 = (ltxW :: []).take 1000 ∧
      ((ltxW :: []).take 1000).length ≤ 1000) ∧
    recOldPending ∈ storeFullW ∧
    recOldPending ∉ (txW :: storeFullW).take 50 := by
  refine ⟨?_, by decide, by decide⟩
  have h := C10_store_cap reqW "tx_w" 7 storeFullW txW
    ((txW :: storeFullW).take 50) (by decide)
    lreqW "ltx_w" 7 [] ltxW ((ltxW :: []).take 1000) (by decide)
  exact ⟨rfl, h.2.1, rfl, h.2.2.2⟩

/-- An intake payload whose amount is strictly negative: every field is
truthy, so `api/transaction.js` accepts it. -/
def reqNeg : IntakeRequest :=
  { senderAddress := "0xA", destinationAddress := "0xB",
    amount := some (-1), escrowTxHash := "0xE1" }

def txNeg : TxRecord :=
  { id := "tx_neg", senderAddress := "0xA", destinationAddress := "0xB",
    amount := -1, escrowTxHash := "0xE1", status := .pending,
    receivedAt := some 3 }

/-- Claim C7 counterexample: the intake payload `reqNeg` has the non-positive
amount -1, yet the serverless intake accepts it and creates a record — the
validation `!transaction.amount` only rejects a zero (falsy) amount, not a
negative one. -/
theorem C7_counterexample :
    reqNeg.amount = some (-1) ∧ (-1 : ℚ) < 0 ∧
    intakeServerless reqNeg "tx_neg" 3 [] = some (txNeg, [txNeg]) := by
  refine ⟨rfl, by norm_num, ?_⟩
  decide

/-- Claim C7 (amended): an intake request is rejected with a validation error
and no record is created iff a required field is missing/empty or the amount
is zero (JavaScript falsiness) — a strictly negative amount is accepted;
on acceptance the generated id is assigned, `status` is set to `pending`,
`receivedAt` is stamped, and the record is persisted at the head of the
store (truncated to the newest 50). -/
theorem C7_intake (req : IntakeRequest) (genId : String) (now : Nat)
    (store : List TxRecord) :
    ((req.senderAddress = "" ∨ req.destinationAddress = "" ∨
        amountFalsy req.amount = true ∨ req.escrowTxHash = "") →
      intakeServerless req genId now store = none) ∧
    (∀ tx store', intakeServerless req genId now store = some (tx, store') →
      tx.id = genId ∧ tx.status = .pending ∧ tx.receivedAt = some now ∧
      (∀ q, req.amount = some q → tx.amount = q) ∧
      store' = (tx :: store).take 50) := by
  constructor
  · intro hbad
    simp only [intakeServerless, if_pos hbad]
  · intro tx store' hsome
    unfold intakeServerless at hsome
    split at hsome
    · exact absurd hsome (by simp)
    · dsimp only at hsome
      rw [Option.some.injEq, Prod.mk.injEq] at hsome
      obtain ⟨htx, hst⟩ := hsome
      subst htx
      refine ⟨rfl, rfl, rfl, ?_, ?_⟩
      · intro q hq
        simp [hq]
      · rw [← hst]
        split
        · rfl
        · rename_i hle
          exact (List.take_of_length_le (by omega)).symm

/-- An intake payload with an empty destination address, rejected as
missing. -/
def reqMissW : IntakeRequest :=
  { senderAddress := "0xA", destinationAddress := "", amount := some 1,
    escrowTxHash := "0xE1" }

theorem C7_witness :
    intakeServerless reqMissW "tx_a" 0 [] = none ∧
    txW.id = "tx_w" ∧ txW.status = Status.pending ∧
    txW.receivedAt = some 7 ∧ txW.amount = 1 := by
  have h2 := (C7_intake reqW "tx_w" 7 storeFullW).2 txW
    ((txW :: storeFullW).take 50) (by decide)
  exact ⟨(C7_intake reqMissW "tx_a" 0 []).1 (Or.inr (Or.inl rfl)),
    h2.1, h2.2.1, h2.2.2.1, h2.2.2.2.1 1 rfl⟩

/-! ## Theorem: transient errors (C6) -/

/-- Claim C6: a transport/RPC `error` classification is transient.  When every
classification performed during a serverless pass returns `error`, a record
whose status is `pending` or `forwarding_pending` is left completely
unchanged — no status change, no `error` field, no `failed` transition, and
no deletion is scheduled, so it stays in the store for the next pass. -/
theorem C6_error_transient (env : PassEnv) (now : Nat) (tx : TxRecord)
    (hs : tx.status = .pending ∨ tx.status = .forwardingPending)
    (he : (verifyTransaction env.escrowChain tx.escrowTxHash).isError = true)
    (hf : ∀ h, tx.forwardTxHash = some h →
      (verifyTransaction env.forwardChain h).isError = true) :
    (stepVerify env now tx).1 = tx ∧ (stepVerify env now tx).2.scheduled = [] := by
  have hv := VerifyResult.not_verified_of_isError he
  have hfl := VerifyResult.not_failed_of_isError he
  have h1 : step1 (verifyTransaction env.escrowChain tx.escrowTxHash) now tx
      = (tx, []) := by
    unfold step1
    rw [if_neg (by simp [hfl]), if_neg (by simp [hv])]
  have hsv : tx.status ≠ .verified := by
    rcases hs with h | h <;> simp [h]
  have h2 : step2 env.broadcast now tx = (tx, false, none, []) := by
    unfold step2
    rw [if_neg (by simp [hsv])]
  have h3 : step3 env.forwardChain now tx = (tx, none, []) ∨
      ∃ v, step3 env.forwardChain now tx = (tx, some v, []) := by
    unfold step3
    cases htx : tx.forwardTxHash with
    | none => exact Or.inl rfl
    | some h =>
      have hev := hf h htx
      have hv2 := VerifyResult.not_verified_of_isError hev
      have hfl2 := VerifyResult.not_failed_of_isError hev
      dsimp only
      by_cases hst : tx.status = .forwardingPending
      · refine Or.inr ⟨verifyTransaction env.forwardChain h, ?_⟩
        rw [if_pos hst]
        simp [hv2, hfl2]
      · exact Or.inl (by rw [if_neg hst])
  unfold stepVerify
  simp only [h1, h2]
  rcases h3 with h3 | ⟨v, h3⟩ <;> simp [h3]

/-- A record and environment for the C6 witness: a forwarding-pending record
whose escrow and forward classifications both throw. -/
def txPendFwdW : TxRecord :=
  { id := "tx_fp", senderAddress := "0xA", destinationAddress := "0xB",
    amount := 1, escrowTxHash := "0xE1", forwardTxHash := some "0xF1",
    forwardedAmount := some (99 / 100), feeKept := some (1 / 100),
    status := .forwardingPending }

def envAllErrW : PassEnv :=
  { escrowChain := { receiptOf := fun _ => .err "ECONNRESET",
                     currentBlock := .err "ECONNRESET" },
    forwardChain := { receiptOf := fun _ => .err "ECONNRESET",
                      currentBlock := .err "ECONNRESET" },
    broadcast := .notConfigured }

theorem C6_witness :
    (stepVerify envAllErrW 11 txPendFwdW).1 = txPendFwdW ∧
    (stepVerify envAllErrW 11 txPendFwdW).2.scheduled = [] :=
  C6_error_transient envAllErrW 11 txPendFwdW (Or.inr rfl) (by decide)
    (fun h hh => by
      simp only [txPendFwdW, Option.some.injEq] at hh
      subst hh
      decide)

/-! ## Characterization lemmas for the serverless pass -/

theorem VerifyResult.not_verified_of_isFailed {v : VerifyResult}
    (h : v.isFailed = true) : v.isVerified = false := by
  cases v <;> simp_all [VerifyResult.isVerified, VerifyResult.isFailed]

theorem stepVerify_expand (env : PassEnv) (now : Nat) (tx : TxRecord) :
    stepVerify env now tx =
      ((step3 env.forwardChain now
          (step2 env.broadcast now
            (step1 (verifyTransaction env.escrowChain tx.escrowTxHash) now tx).1).1).1,
       { escrowResult := verifyTransaction env.escrowChain tx.escrowTxHash,
         forwardResult := (step3 env.forwardChain now
            (step2 env.broadcast now
              (step1 (verifyTransaction env.escrowChain tx.escrowTxHash) now tx).1).1).2.1,
         forwardInvoked := (step2 env.broadcast now
            (step1 (verifyTransaction env.escrowChain tx.escrowTxHash) now tx).1).2.1,
         sentValue := (step2 env.broadcast now
            (step1 (verifyTransaction env.escrowChain tx.escrowTxHash) now tx).1).2.2.1,
         scheduled :=
           (step1 (verifyTransaction env.escrowChain tx.escrowTxHash) now tx).2 ++
           (step2 env.broadcast now
             (step1 (verifyTransaction env.escrowChain tx.escrowTxHash) now tx).1).2.2.2 ++
           (step3 env.forwardChain now
             (step2 env.broadcast now
               (step1 (verifyTransaction env.escrowChain tx.escrowTxHash) now tx).1).1).2.2 }) :=
  rfl

theorem step1_of_isFailed {v : VerifyResult} (now : Nat) (tx : TxRecord)
    (h : v.isFailed = true) :
    step1 v now tx =
      ({ tx with status := .failed,
                 error := some "Escrow transaction failed on blockchain",
                 failedAt := some now }, [now + 300]) := by
  have hv := VerifyResult.not_verified_of_isFailed h
  unfold step1
  dsimp only
  rw [if_pos h,
    if_neg (show ¬(v.isVerified = true ∧ tx.status = Status.pending) by
      simp [hv])]

theorem step1_of_verified_pending {v : VerifyResult} (now : Nat)
    (tx : TxRecord) (hv : v.isVerified = true) (hp : tx.status = .pending) :
    step1 v now tx =
      ({ tx with status := .verified, verifiedAt := some now,
                 escrowVerification := some v }, []) := by
  have hf := VerifyResult.not_failed_of_isVerified hv
  unfold step1
  dsimp only
  rw [if_neg (show ¬(v.isFailed = true) by simp [hf]),
    if_pos (show v.isVerified = true ∧ tx.status = Status.pending from ⟨hv, hp⟩)]

theorem step1_of_quiet {v : VerifyResult} (now : Nat) (tx : TxRecord)
    (h1 : ¬(v.isVerified = true ∧ tx.status = .pending))
    (hf : v.isFailed = false) :
    step1 v now tx = (tx, []) := by
  unfold step1
  dsimp only
  rw [if_neg (show ¬(v.isFailed = true) by simp [hf]), if_neg h1]

theorem step2_of_not {b : Broadcast} (now : Nat) (tx : TxRecord)
    (h : ¬(tx.status = .verified ∧ tx.forwardTxHash = none)) :
    step2 b now tx = (tx, false, none, []) := by
  unfold step2
  rw [if_neg h]

theorem step2_of_accepted (h : String) (now : Nat) (tx : TxRecord)
    (hs : tx.status = .verified) (hh : tx.forwardTxHash = none) :
    step2 (.accepted h) now tx =
      ({ tx with status := .forwardingPending, forwardTxHash := some h,
                 forwardedAmount := some (forwardValue tx.amount),
                 feeKept := some (forwardFee tx.amount),
                 forwardInitiatedAt := some now },
       true, some (forwardValue tx.amount), []) := by
  unfold step2
  rw [if_pos ⟨hs, hh⟩]
  rfl

theorem step2_of_notConfigured (now : Nat) (tx : TxRecord)
    (hs : tx.status = .verified) (hh : tx.forwardTxHash = none) :
    step2 .notConfigured now tx =
      ({ tx with status := .failed,
                 error := some "Escrow wallet not configured",
                 failedAt := some now },
       true, none, [now + 300]) := by
  unfold step2
  rw [if_pos ⟨hs, hh⟩]
  rfl

theorem step2_of_rejected (msg : String) (now : Nat) (tx : TxRecord)
    (hs : tx.status = .verified) (hh : tx.forwardTxHash = none) :
    step2 (.rejected msg) now tx =
      ({ tx with status := .failed, error := some msg,
                 failedAt := some now },
       true, some (forwardValue tx.amount), [now + 300]) := by
  unfold step2
  rw [if_pos ⟨hs, hh⟩]
  rfl

theorem step3_of_none (c : ChainView) (now : Nat) (tx : TxRecord)
    (h : tx.forwardTxHash = none) :
    step3 c now tx = (tx, none, []) := by
  unfold step3
  rw [h]

theorem step3_of_notFwdPending (c : ChainView) {hh : String} (now : Nat)
    (tx : TxRecord) (h : tx.forwardTxHash = some hh)
    (hs : tx.status ≠ .forwardingPending) :
    step3 c now tx = (tx, none, []) := by
  unfold step3
  rw [h]
  dsimp only
  rw [if_neg hs]

theorem step3_of_fwdp_verified (c : ChainView) {hh : String} (now : Nat)
    (tx : TxRecord) (h : tx.forwardTxHash = some hh)
    (hs : tx.status = .forwardingPending)
    (hv : (verifyTransaction c hh).isVerified = true) :
    step3 c now tx =
      ({ tx with status := .completed,
                 forwardVerification := some (verifyTransaction c hh),
                 completedAt := some now },
       some (verifyTransaction c hh), [now + 60]) := by
  have hf := VerifyResult.not_failed_of_isVerified hv
  unfold step3
  rw [h]
  dsimp only
  rw [if_pos hs, if_pos hv,
    if_neg (show ¬((verifyTransaction c hh).isFailed = true) by simp [hf])]

theorem step3_of_fwdp_failed (c : ChainView) {hh : String} (now : Nat)
    (tx : TxRecord) (h : tx.forwardTxHash = some hh)
    (hs : tx.status = .forwardingPending)
    (hv : (verifyTransaction c hh).isFailed = true) :
    step3 c now tx =
      ({ tx with status := .failed,
                 error := some "Forward transaction failed on blockchain",
                 failedAt := some now },
       some (verifyTransaction c hh), []) := by
  have hnv := VerifyResult.not_verified_of_isFailed hv
  unfold step3
  rw [h]
  dsimp only
  rw [if_pos hs,
    if_neg (show ¬((verifyTransaction c hh).isVerified = true) by simp [hnv]),
    if_pos hv]
  simp [h]

theorem step3_of_fwdp_quiet (c : ChainView) {hh : String} (now : Nat)
    (tx : TxRecord) (h : tx.forwardTxHash = some hh)
    (hs : tx.status = .forwardingPending)
    (hv : (verifyTransaction c hh).isVerified = false)
    (hf : (verifyTransaction c hh).isFailed = false) :
    step3 c now tx = (tx, some (verifyTransaction c hh), []) := by
  unfold step3
  rw [h]
  dsimp only
  rw [if_pos hs,
    if_neg (show ¬((verifyTransaction c hh).isVerified = true) by simp [hv]),
    if_neg (show ¬((verifyTransaction c hh).isFailed = true) by simp [hf])]

/-- `step1` never touches the amount, fee or forward-hash fields. -/
theorem step1_preserves (v : VerifyResult) (now : Nat) (tx : TxRecord) :
    (step1 v now tx).1.amount = tx.amount ∧
    (step1 v now tx).1.forwardTxHash = tx.forwardTxHash ∧
    (step1 v now tx).1.forwardedAmount = tx.forwardedAmount ∧
    (step1 v now tx).1.feeKept = tx.feeKept ∧
    (step1 v now tx).1.escrowTxHash = tx.escrowTxHash := by
  unfold step1
  dsimp only
  split <;> split <;> simp

/-- `step3` never touches the amount, fee or forward-hash fields. -/
theorem step3_preserves (c : ChainView) (now : Nat) (tx : TxRecord) :
    (step3 c now tx).1.amount = tx.amount ∧
    (step3 c now tx).1.forwardTxHash = tx.forwardTxHash ∧
    (step3 c now tx).1.forwardedAmount = tx.forwardedAmount ∧
    (step3 c now tx).1.feeKept = tx.feeKept ∧
    (step3 c now tx).1.escrowTxHash = tx.escrowTxHash := by
  cases htx : tx.forwardTxHash with
  | none =>
    rw [step3_of_none c now tx htx]
    simp [htx]
  | some h =>
    by_cases hs : tx.status = .forwardingPending
    · by_cases hv : (verifyTransaction c h).isVerified = true
      · rw [step3_of_fwdp_verified c now tx htx hs hv]
        simp [htx]
      · by_cases hfl : (verifyTransaction c h).isFailed = true
        · rw [step3_of_fwdp_failed c now tx htx hs hfl]
          simp [htx]
        · rw [step3_of_fwdp_quiet c now tx htx hs
            (by simpa using hv) (by simpa using hfl)]
          simp [htx]
    · rw [step3_of_notFwdPending c now tx htx hs]
      simp [htx]

/-- Exhaustive case split for STEP 1. -/
theorem step1_cases (v : VerifyResult) (now : Nat) (tx : TxRecord) :
    (v.isFailed = true ∧ step1 v now tx =
      ({ tx with status := .failed,
                 error := some "Escrow transaction failed on blockchain",
                 failedAt := some now }, [now + 300])) ∨
    (v.isFailed = false ∧ v.isVerified = true ∧ tx.status = .pending ∧
      step1 v now tx =
        ({ tx with status := .verified, verifiedAt := some now,
                   escrowVerification := some v }, [])) ∨
    (v.isFailed = false ∧ ¬(v.isVerified = true ∧ tx.status = .pending) ∧
      step1 v now tx = (tx, [])) := by
  by_cases hf : v.isFailed = true
  · exact Or.inl ⟨hf, step1_of_isFailed now tx hf⟩
  · have hf' : v.isFailed = false := by simpa using hf
    by_cases hvp : v.isVerified = true ∧ tx.status = .pending
    · exact Or.inr (Or.inl
        ⟨hf', hvp.1, hvp.2, step1_of_verified_pending now tx hvp.1 hvp.2⟩)
    · exact Or.inr (Or.inr ⟨hf', hvp, step1_of_quiet now tx hvp hf'⟩)

/-- Exhaustive case split for STEP 2. -/
theorem step2_cases (b : Broadcast) (now : Nat) (tx : TxRecord) :
    (¬(tx.status = .verified ∧ tx.forwardTxHash = none) ∧
      step2 b now tx = (tx, false, none, [])) ∨
    (tx.status = .verified ∧ tx.forwardTxHash = none ∧
      ((∃ h, b = .accepted h ∧ step2 b now tx =
          ({ tx with status := .forwardingPending, forwardTxHash := some h,
                     forwardedAmount := some (forwardValue tx.amount),
                     feeKept := some (forwardFee tx.amount),
                     forwardInitiatedAt := some now },
           true, some (forwardValue tx.amount), [])) ∨
       (∃ e, step2 b now tx =
          ({ tx with status := .failed, error := some e,
                     failedAt := some now },
           true, attemptedValue b tx.amount, [now + 300])))) := by
  by_cases hg : tx.status = .verified ∧ tx.forwardTxHash = none
  · refine Or.inr ⟨hg.1, hg.2, ?_⟩
    cases b with
    | accepted h => exact Or.inl ⟨h, rfl, step2_of_accepted h now tx hg.1 hg.2⟩
    | notConfigured =>
        exact Or.inr ⟨_, step2_of_notConfigured now tx hg.1 hg.2⟩
    | rejected msg =>
        exact Or.inr ⟨_, step2_of_rejected msg now tx hg.1 hg.2⟩
  · exact Or.inl ⟨hg, step2_of_not now tx hg⟩

/-- Exhaustive case split for STEP 3. -/
theorem step3_cases (c : ChainView) (now : Nat) (tx : TxRecord) :
    ((tx.forwardTxHash = none ∨ tx.status ≠ .forwardingPending) ∧
      step3 c now tx = (tx, none, [])) ∨
    (∃ h, tx.forwardTxHash = some h ∧ tx.status = .forwardingPending ∧
      (((verifyTransaction c h).isVerified = true ∧ step3 c now tx =
          ({ tx with status := .completed,
                     forwardVerification := some (verifyTransaction c h),
                     completedAt := some now },
           some (verifyTransaction c h), [now + 60])) ∨
       ((verifyTransaction c h).isFailed = true ∧ step3 c now tx =
          ({ tx with status := .failed,
                     error := some "Forward transaction failed on blockchain",
                     failedAt := some now },
           some (verifyTransaction c h), [])) ∨
       ((verifyTransaction c h).isVerified = false ∧
        (verifyTransaction c h).isFailed = false ∧
        step3 c now tx = (tx, some (verifyTransaction c h), [])))) := by
  rcases Option.eq_none_or_eq_some tx.forwardTxHash with htx | ⟨h, htx⟩
  · exact Or.inl ⟨Or.inl htx, step3_of_none c now tx htx⟩
  · by_cases hs : tx.status = .forwardingPending
    · refine Or.inr ⟨h, htx, hs, ?_⟩
      by_cases hv : (verifyTransaction c h).isVerified = true
      · exact Or.inl ⟨hv, step3_of_fwdp_verified c now tx htx hs hv⟩
      · by_cases hfl : (verifyTransaction c h).isFailed = true
        · exact Or.inr (Or.inl ⟨hfl, step3_of_fwdp_failed c now tx htx hs hfl⟩)
        · exact Or.inr (Or.inr ⟨by simpa using hv, by simpa using hfl,
            step3_of_fwdp_quiet c now tx htx hs (by simpa using hv)
              (by simpa using hfl)⟩)
    · exact Or.inl ⟨Or.inr hs, step3_of_notFwdPending c now tx htx hs⟩

/-- Once the forward hash is set, a pass preserves it together with the
recorded amounts and never invokes the forwarder again. -/
theorem stepVerify_frozen (env : PassEnv) (now : Nat) (tx : TxRecord)
    {h : String} (hh : tx.forwardTxHash = some h) :
    (stepVerify env now tx).1.forwardTxHash = some h ∧
    (stepVerify env now tx).1.forwardedAmount = tx.forwardedAmount ∧
    (stepVerify env now tx).1.feeKept = tx.feeKept ∧
    (stepVerify env now tx).1.amount = tx.amount ∧
    (stepVerify env now tx).2.forwardInvoked = false := by
  rw [stepVerify_expand]
  dsimp only
  obtain ⟨p1a, p1h, p1f, p1k, p1e⟩ :=
    step1_preserves (verifyTransaction env.escrowChain tx.escrowTxHash) now tx
  have h2 : step2 env.broadcast now
      (step1 (verifyTransaction env.escrowChain tx.escrowTxHash) now tx).1 =
      ((step1 (verifyTransaction env.escrowChain tx.escrowTxHash) now tx).1,
        false, none, []) :=
    step2_of_not now _ (by rw [p1h, hh]; simp)
  rw [h2]
  dsimp only
  obtain ⟨q1a, q1h, q1f, q1k, q1e⟩ :=
    step3_preserves env.forwardChain now
      (step1 (verifyTransaction env.escrowChain tx.escrowTxHash) now tx).1
  refine ⟨?_, ?_, ?_, ?_, rfl⟩
  · rw [q1h, p1h, hh]
  · rw [q1f, p1f]
  · rw [q1k, p1k]
  · rw [q1a, p1a]

theorem runVerify_nil (tx : TxRecord) : runVerify tx [] = (tx, []) := rfl

theorem runVerify_cons (env : PassEnv) (now : Nat) (tx : TxRecord)
    (rest : List (PassEnv × Nat)) :
    runVerify tx ((env, now) :: rest) =
      ((runVerify (stepVerify env now tx).1 rest).1,
       (stepVerify env now tx).2 :: (runVerify (stepVerify env now tx).1 rest).2) :=
  rfl

/-- Claim C2: when the serverless Forwarder succeeds (the pass sets the
forward hash), the recorded fields are `feeKept = amount * feePercentage/100`
and `forwardedAmount = amount - feeKept`, so `forwardedAmount + feeKept`
equals `amount` exactly (amounts are modelled as exact rationals); and once
set, the forward hash and both recorded amounts are never changed by any
later pass. -/
theorem C2_fee_conservation :
    (∀ (env : PassEnv) (now : Nat) (tx : TxRecord) (h : String),
      tx.forwardTxHash = none →
      (stepVerify env now tx).1.forwardTxHash = some h →
      (stepVerify env now tx).1.forwardedAmount = some (forwardValue tx.amount) ∧
      (stepVerify env now tx).1.feeKept = some (forwardFee tx.amount) ∧
      forwardValue tx.amount + forwardFee tx.amount = tx.amount ∧
      forwardFee tx.amount = tx.amount * FEE_PERCENTAGE / 100) ∧
    (∀ (trace : List (PassEnv × Nat)) (tx : TxRecord) (h : String) (f k : ℚ),
      tx.forwardTxHash = some h → tx.forwardedAmount = some f →
      tx.feeKept = some k →
      (runVerify tx trace).1.forwardTxHash = some h ∧
      (runVerify tx trace).1.forwardedAmount = some f ∧
      (runVerify tx trace).1.feeKept = some k) := by
  constructor
  · intro env now tx h hn hset
    rw [stepVerify_expand] at hset ⊢
    dsimp only at hset ⊢
    obtain ⟨p1a, p1h, p1f, p1k, p1e⟩ :=
      step1_preserves (verifyTransaction env.escrowChain tx.escrowTxHash) now tx
    obtain ⟨q1a, q1h, q1f, q1k, q1e⟩ :=
      step3_preserves env.forwardChain now
        (step2 env.broadcast now
          (step1 (verifyTransaction env.escrowChain tx.escrowTxHash) now tx).1).1
    rw [q1h] at hset
    rcases step2_cases env.broadcast now
        (step1 (verifyTransaction env.escrowChain tx.escrowTxHash) now tx).1 with
      ⟨hg, he2⟩ | ⟨hg1, hg2, ⟨hb, hbe, he2⟩ | ⟨e, he2⟩⟩
    · rw [he2] at hset
      dsimp only at hset
      rw [p1h, hn] at hset
      exact absurd hset (by simp)
    · refine ⟨?_, ?_, ?_, ?_⟩
      · rw [q1f, he2]
        simp [p1a]
      · rw [q1k, he2]
        simp [p1a]
      · unfold forwardValue forwardFee
        ring
      · unfold forwardFee
        ring
    · rw [he2] at hset
      dsimp only at hset
      rw [p1h, hn] at hset
      exact absurd hset (by simp)
  · intro trace
    induction trace with
    | nil =>
      intro tx h f k h1 h2 h3
      rw [runVerify_nil]
      exact ⟨h1, h2, h3⟩
    | cons p rest ih =>
      obtain ⟨env, now⟩ := p
      intro tx h f k h1 h2 h3
      obtain ⟨s1, s2, s3, _, _⟩ := stepVerify_frozen env now tx h1
      rw [runVerify_cons]
      dsimp only
      exact ih (stepVerify env now tx).1 h f k s1 (by rw [s2, h2])
        (by rw [s3, h3])

/-- A one-pass environment for the C2/C8 witnesses: escrow verified with 5
confirmations, forward broadcast accepted. -/
def envOkW : PassEnv :=
  { escrowChain := { receiptOf := fun _ => .ok (some ⟨1, 4⟩),
                     currentBlock := .ok 9 },
    forwardChain := { receiptOf := fun _ => .ok none, currentBlock := .ok 9 },
    broadcast := .accepted "0xFWD" }

def txPendW : TxRecord :=
  { id := "tx_p", senderAddress := "0xA", destinationAddress := "0xB",
    amount := 1, escrowTxHash := "0xE1", status := .pending,
    receivedAt := some 0 }

theorem C2_witness :
    ((stepVerify envOkW 1 txPendW).1.forwardedAmount =
        some (forwardValue txPendW.amount) ∧
      (stepVerify envOkW 1 txPendW).1.feeKept =
        some (forwardFee txPendW.amount) ∧
      forwardValue txPendW.amount + forwardFee txPendW.amount =
        txPendW.amount ∧
      forwardFee txPendW.amount =
        txPendW.amount * FEE_PERCENTAGE / 100) ∧
    ((runVerify txPendFwdW []).1.forwardTxHash = some "0xF1" ∧
      (runVerify txPendFwdW []).1.forwardedAmount = some (99 / 100) ∧
      (runVerify txPendFwdW []).1.feeKept = some (1 / 100)) :=
  ⟨C2_fee_conservation.1 envOkW 1 txPendW "0xFWD" rfl (by decide),
   C2_fee_conservation.2 [] txPendFwdW "0xF1" (99 / 100) (1 / 100) rfl rfl rfl⟩

/-! ## Characterization lemmas for the legacy worker -/

theorem stepServer_of_terminal (env : SPassEnv) (now : Nat) (s : STxRecord)
    (h : s.status = .completed ∨ s.status = .failed) :
    stepServer env now s =
      (s, { classified := [], sendInvoked := false, sentValue := none }) := by
  unfold stepServer
  rw [if_pos h]

/-- The only value the legacy worker ever hands to `sendTransaction` is the
full `transaction.amount`. -/
theorem stepServer_sentValue (env : SPassEnv) (now : Nat) (s : STxRecord) :
    (stepServer env now s).2.sentValue = none ∨
    (stepServer env now s).2.sentValue =
      attemptedValueServer env.broadcast s.amount := by
  unfold stepServer
  split
  · exact Or.inl rfl
  · dsimp only
    split
    · split <;> split <;>
        first
          | (split <;> exact Or.inr rfl)
          | exact Or.inl rfl
    · split <;> exact Or.inl rfl

/-- The only value the serverless forwarder ever hands to `sendTransaction`
is the amount net of the fee. -/
theorem stepVerify_sentValue (env : PassEnv) (now : Nat) (tx : TxRecord) :
    (stepVerify env now tx).2.sentValue = none ∨
    (stepVerify env now tx).2.sentValue =
      attemptedValue env.broadcast tx.amount := by
  rw [stepVerify_expand]
  dsimp only
  obtain ⟨p1a, p1h, p1f, p1k, p1e⟩ :=
    step1_preserves (verifyTransaction env.escrowChain tx.escrowTxHash) now tx
  rcases step2_cases env.broadcast now
      (step1 (verifyTransaction env.escrowChain tx.escrowTxHash) now tx).1 with
    ⟨hg, he2⟩ | ⟨hg1, hg2, ⟨hb, hbe, he2⟩ | ⟨e, he2⟩⟩
  · rw [he2]
    exact Or.inl rfl
  · rw [he2]
    right
    dsimp only
    rw [hbe, p1a]
    rfl
  · rw [he2]
    right
    dsimp only
    rw [p1a]

/-! ## Theorems: forwarded value and fee computation (C8) -/

/-- A legacy record and environment: both classifications verified, the
broadcast accepted. -/
def sPendW : STxRecord :=
  { id := "s_p", senderAddress := "0xA", destinationAddress := "0xB",
    amount := 1, feeTxHash := "0xFee", mainTxHash := "0xMain",
    status := .pending, receivedAt := some 0 }

def envSendW : SPassEnv :=
  { feeChain := { receiptOf := fun _ => .ok (some ⟨1, 4⟩),
                  currentBlock := .ok 9 },
    mainChain := { receiptOf := fun _ => .ok (some ⟨1, 4⟩),
                   currentBlock := .ok 9 },
    broadcast := .accepted "0xF3" }

/-- Claim C8 counterexample: on the legacy variant the forwarder is invoked
for `sPendW` (amount 1) and hands the full amount 1 to `sendTransaction`,
not the fee-adjusted `forwardedAmount` 0.99 — no fee is computed at all. -/
theorem C8_counterexample :
    (stepServer envSendW 9 sPendW).2.sendInvoked = true ∧
    (stepServer envSendW 9 sPendW).2.sentValue = some 1 ∧
    (1 : ℚ) ≠ forwardValue 1 := by
  refine ⟨by decide, by decide, ?_⟩
  unfold forwardValue FEE_PERCENTAGE
  norm_num

/-- Claim C8 (amended): the serverless forwarder computes
`feeKept = amount * feePercentage / 100` and
`forwardedAmount = amount - feeKept` and hands exactly `forwardedAmount` to
the Gateway; the legacy variant (`server.js sendToDestination`) instead hands
the full `amount` to the Gateway with no fee deduction. -/
theorem C8_forwarded_value :
    (∀ (env : PassEnv) (now : Nat) (tx : TxRecord) (v : ℚ),
      (stepVerify env now tx).2.sentValue = some v →
      v = tx.amount - tx.amount * (FEE_PERCENTAGE / 100) ∧
      v = tx.amount - forwardFee tx.amount ∧
      forwardFee tx.amount = tx.amount * FEE_PERCENTAGE / 100) ∧
    (∀ (env : SPassEnv) (now : Nat) (s : STxRecord) (v : ℚ),
      (stepServer env now s).2.sentValue = some v → v = s.amount) := by
  constructor
  · intro env now tx v hv
    rcases stepVerify_sentValue env now tx with h | h
    · rw [h] at hv
      exact absurd hv (by simp)
    · rw [h] at hv
      cases hb : env.broadcast <;> rw [hb] at hv <;>
        simp [attemptedValue, forwardValue, forwardFee] at hv
      · exact ⟨by rw [← hv], by rw [← hv]; unfold forwardFee; ring,
          by unfold forwardFee; ring⟩
      · exact ⟨by rw [← hv], by rw [← hv]; unfold forwardFee; ring,
          by unfold forwardFee; ring⟩
  · intro env now s v hv
    rcases stepServer_sentValue env now s with h | h
    · rw [h] at hv
      exact absurd hv (by simp)
    · rw [h] at hv
      cases hb : env.broadcast <;> rw [hb] at hv <;>
        simp [attemptedValueServer] at hv
      all_goals exact hv.symm

theorem C8_witness :
    (forwardValue txPendW.amount =
        txPendW.amount - txPendW.amount * (FEE_PERCENTAGE / 100) ∧
      forwardValue txPendW.amount =
        txPendW.amount - forwardFee txPendW.amount ∧
      forwardFee txPendW.amount =
        txPendW.amount * FEE_PERCENTAGE / 100) ∧
    sPendW.amount = sPendW.amount :=
  ⟨C8_forwarded_value.1 envOkW 1 txPendW (forwardValue txPendW.amount) rfl,
   C8_forwarded_value.2 envSendW 9 sPendW sPendW.amount rfl⟩

/-! ## Theorems: retention scheduling (C5) -/

def chainVerifiedW : ChainView :=
  { receiptOf := fun _ => .ok (some ⟨1, 4⟩), currentBlock := .ok 9 }

def chainFailedW : ChainView :=
  { receiptOf := fun _ => .ok (some ⟨0, 4⟩), currentBlock := .ok 9 }

def chainPendingW : ChainView :=
  { receiptOf := fun _ => .ok none, currentBlock := .ok 9 }

/-- Environment in which the forward hash classifies as failed on chain while
the escrow hash is still unmined. -/
def envFwdFailW : PassEnv :=
  { escrowChain := chainPendingW, forwardChain := chainFailedW,
    broadcast := .notConfigured }

/-- Claim C5 counterexample: a forwarding-pending record whose forward hash
classifies as failed on chain is marked `failed` (with `failedAt` stamped),
yet the pass schedules NO deletion at all — unlike the escrow-failure and
broadcast-failure paths, the source's STEP 3 failure branch has no
`setTimeout` — so this record is never removed by the retention
mechanism. -/
theorem C5_counterexample :
    (stepVerify envFwdFailW 50 txPendFwdW).1.status = .failed ∧
    (stepVerify envFwdFailW 50 txPendFwdW).1.failedAt = some 50 ∧
    (stepVerify envFwdFailW 50 txPendFwdW).2.scheduled = [] := by
  decide

/-- Claim C5 (amended): a record entering `completed` has a deletion
scheduled 60 s later; a record entering `failed` through the escrow-failed
classification or through a forward-broadcast failure has a deletion
scheduled 300 s later; but a record entering `failed` through the forward
transaction failing on chain has no deletion scheduled at all, so only two
of the three failure causes are ever cleaned up. -/
theorem C5_retention (env : PassEnv) (now : Nat) (tx : TxRecord) :
    ((stepVerify env now tx).1.status = .completed → tx.status ≠ .completed →
      now + 60 ∈ (stepVerify env now tx).2.scheduled) ∧
    ((verifyTransaction env.escrowChain tx.escrowTxHash).isFailed = true →
      now + 300 ∈ (stepVerify env now tx).2.scheduled) ∧
    ((stepVerify env now tx).2.forwardInvoked = true →
      (stepVerify env now tx).1.forwardTxHash = none →
      now + 300 ∈ (stepVerify env now tx).2.scheduled) ∧
    (∀ h, tx.status = .forwardingPending → tx.forwardTxHash = some h →
      (verifyTransaction env.forwardChain h).isFailed = true →
      (verifyTransaction env.escrowChain tx.escrowTxHash).isFailed = false →
      (stepVerify env now tx).1.status = .failed ∧
      (stepVerify env now tx).2.scheduled = []) := by
  obtain ⟨p1a, p1h, p1f, p1k, p1e⟩ :=
    step1_preserves (verifyTransaction env.escrowChain tx.escrowTxHash) now tx
  refine ⟨?_, ?_, ?_, ?_⟩
  · -- completion schedules a 60 s deletion
    intro hc hnc
    rw [stepVerify_expand] at hc ⊢
    dsimp only at hc ⊢
    rcases step3_cases env.forwardChain now
        (step2 env.broadcast now
          (step1 (verifyTransaction env.escrowChain tx.escrowTxHash) now tx).1).1 with
      ⟨hcond, he3⟩ | ⟨h, hh, hst, ⟨hv, he3⟩ | ⟨hv, he3⟩ | ⟨hv, hf, he3⟩⟩
    · -- step3 did nothing: completed must have come from step2/step1 — impossible
      rw [he3] at hc
      dsimp only at hc
      rcases step2_cases env.broadcast now
          (step1 (verifyTransaction env.escrowChain tx.escrowTxHash) now tx).1 with
        ⟨hg, he2⟩ | ⟨hg1, hg2, ⟨hb, hbe, he2⟩ | ⟨e, he2⟩⟩ <;> rw [he2] at hc <;>
        dsimp only at hc
      · rcases step1_cases (verifyTransaction env.escrowChain tx.escrowTxHash)
            now tx with ⟨hf1, he1⟩ | ⟨hf1, hv1, hp1, he1⟩ | ⟨hf1, hnvp, he1⟩ <;>
          rw [he1] at hc <;> simp at hc
        exact absurd hc hnc
      · simp at hc
      · simp at hc
    · rw [he3]
      simp
    · rw [he3] at hc
      simp at hc
    · rw [he3] at hc
      dsimp only at hc
      rcases step2_cases env.broadcast now
          (step1 (verifyTransaction env.escrowChain tx.escrowTxHash) now tx).1 with
        ⟨hg, he2⟩ | ⟨hg1, hg2, ⟨hb, hbe, he2⟩ | ⟨e, he2⟩⟩ <;> rw [he2] at hc <;>
        dsimp only at hc
      · rcases step1_cases (verifyTransaction env.escrowChain tx.escrowTxHash)
            now tx with ⟨hf1, he1⟩ | ⟨hf1, hv1, hp1, he1⟩ | ⟨hf1, hnvp, he1⟩ <;>
          rw [he1] at hc <;> simp at hc
        exact absurd hc hnc
      · simp at hc
      · simp at hc
  · -- escrow classified failed: a 300 s deletion is scheduled
    intro hef
    rw [stepVerify_expand]
    dsimp only
    rcases step1_cases (verifyTransaction env.escrowChain tx.escrowTxHash)
        now tx with ⟨hf1, he1⟩ | ⟨hf1, hv1, hp1, he1⟩ | ⟨hf1, hnvp, he1⟩
    · rw [he1]
      simp
    · rw [hf1] at hef
      exact absurd hef (by simp)
    · rw [hf1] at hef
      exact absurd hef (by simp)
  · -- forwarder invoked but no hash recorded: broadcast failed, 300 s deletion
    intro hi hnoh
    rw [stepVerify_expand] at hi hnoh ⊢
    dsimp only at hi hnoh ⊢
    obtain ⟨q1a, q1h, q1f, q1k, q1e⟩ :=
      step3_preserves env.forwardChain now
        (step2 env.broadcast now
          (step1 (verifyTransaction env.escrowChain tx.escrowTxHash) now tx).1).1
    rw [q1h] at hnoh
    rcases step2_cases env.broadcast now
        (step1 (verifyTransaction env.escrowChain tx.escrowTxHash) now tx).1 with
      ⟨hg, he2⟩ | ⟨hg1, hg2, ⟨hb, hbe, he2⟩ | ⟨e, he2⟩⟩
    · rw [he2] at hi
      simp at hi
    · rw [he2] at hnoh
      simp at hnoh
    · rw [he2]
      simp
  · -- forward failed on chain: status failed but nothing scheduled
    intro h hst hh hff hef
    rw [stepVerify_expand]
    dsimp only
    have he1 : step1 (verifyTransaction env.escrowChain tx.escrowTxHash) now tx
        = (tx, []) := by
      apply step1_of_quiet
      · intro hvp
        rw [hvp.2] at hst
        exact absurd hst (by simp)
      · exact hef
    rw [he1]
    dsimp only
    have he2 : step2 env.broadcast now tx = (tx, false, none, []) := by
      apply step2_of_not
      intro hg
      rw [hg.1] at hst
      exact absurd hst (by simp)
    rw [he2]
    dsimp only
    rw [step3_of_fwdp_failed env.forwardChain now tx hh hst hff]
    exact ⟨rfl, rfl⟩

/-- One pass that completes a pending transaction outright: escrow verified,
broadcast accepted, forward verified. -/
def envCompleteW : PassEnv :=
  { escrowChain := chainVerifiedW, forwardChain := chainVerifiedW,
    broadcast := .accepted "0xFWD" }

def envEscrowFailW : PassEnv :=
  { escrowChain := chainFailedW, forwardChain := chainPendingW,
    broadcast := .notConfigured }

theorem C5_witness :
    (51 + 60 ∈ (stepVerify envCompleteW 51 txPendW).2.scheduled) ∧
    (7 + 300 ∈ (stepVerify envEscrowFailW 7 txPendW).2.scheduled) ∧
    ((stepVerify envFwdFailW 50 txPendFwdW).1.status = .failed ∧
      (stepVerify envFwdFailW 50 txPendFwdW).2.scheduled = []) :=
  ⟨(C5_retention envCompleteW 51 txPendW).1 (by decide) (by decide),
   (C5_retention envEscrowFailW 7 txPendW).2.1 (by decide),
   (C5_retention envFwdFailW 50 txPendFwdW).2.2.2 "0xF1" rfl rfl
     (by decide) (by decide)⟩

/-! ## Theorems: status monotonicity (C4) -/

/-- The position of each status along
`pending → verified → forwarding_pending → completed` (the transient
`forwarding` sits with `verified`; `failed` is handled separately). -/
def statusRank : Status → Nat
  | .pending => 0
  | .verified => 1
  | .forwarding => 1
  | .forwardingPending => 2
  | .completed => 3
  | .failed => 0

/-- All status transitions a serverless pass can make. -/
theorem stepVerify_status_cases (env : PassEnv) (now : Nat) (tx : TxRecord) :
    (stepVerify env now tx).1.status = tx.status ∨
    (stepVerify env now tx).1.status = .failed ∨
    (tx.status = .pending ∧ ((stepVerify env now tx).1.status = .verified ∨
      (stepVerify env now tx).1.status = .forwardingPending ∨
      (stepVerify env now tx).1.status = .completed)) ∨
    (tx.status = .verified ∧
      ((stepVerify env now tx).1.status = .forwardingPending ∨
       (stepVerify env now tx).1.status = .completed)) ∨
    (tx.status = .forwardingPending ∧
      (stepVerify env now tx).1.status = .completed) := by
  rw [stepVerify_expand]
  dsimp only
  rcases step1_cases (verifyTransaction env.escrowChain tx.escrowTxHash) now tx
    with ⟨hf1, he1⟩ | ⟨hf1, hv1, hp1, he1⟩ | ⟨hf1, hnvp, he1⟩ <;>
  rcases step2_cases env.broadcast now
      (step1 (verifyTransaction env.escrowChain tx.escrowTxHash) now tx).1
    with ⟨hg, he2⟩ | ⟨hg1, hg2, ⟨hb, hbe, he2⟩ | ⟨e, he2⟩⟩ <;>
  rcases step3_cases env.forwardChain now
      (step2 env.broadcast now
        (step1 (verifyTransaction env.escrowChain tx.escrowTxHash) now tx).1).1
    with ⟨hcond3, he3⟩ | ⟨h3, hh3, hst3, ⟨hv3, he3⟩ | ⟨hv3, he3⟩ | ⟨hv3, hf3, he3⟩⟩ <;>
  simp only [he1, he2, he3] at * <;>
  simp_all

/-- All status transitions a legacy worker visit can make. -/
theorem stepServer_status_cases (env : SPassEnv) (now : Nat) (s : STxRecord) :
    (stepServer env now s).1.status = s.status ∨
    (stepServer env now s).1.status = .failed ∨
    (s.status = .pending ∧ ((stepServer env now s).1.status = .verified ∨
      (stepServer env now s).1.status = .completed)) ∨
    (s.status = .verified ∧ (stepServer env now s).1.status = .completed) := by
  unfold stepServer
  split
  · exact Or.inl rfl
  · dsimp only
    split
    · split
      · rename_i hp
        split
        · split
          · exact Or.inr (Or.inr (Or.inl ⟨hp, Or.inr rfl⟩))
          · exact Or.inr (Or.inl rfl)
        · exact Or.inr (Or.inr (Or.inl ⟨hp, Or.inl rfl⟩))
      · split
        · rename_i hg
          split
          · exact Or.inr (Or.inr (Or.inr ⟨hg.1, rfl⟩))
          · exact Or.inr (Or.inl rfl)
        · exact Or.inl rfl
    · split
      · exact Or.inr (Or.inl rfl)
      · exact Or.inl rfl

/-- A completed serverless record still held in the store during its 60 s
retention window. -/
def txDoneW : TxRecord :=
  { id := "tx_d", senderAddress := "0xA", destinationAddress := "0xB",
    amount := 1, escrowTxHash := "0xE1", forwardTxHash := some "0xF1",
    forwardedAmount := some (99 / 100), feeKept := some (1 / 100),
    status := .completed, completedAt := some 40 }

/-- A pass environment in which the escrow hash now classifies as failed
(e.g. after a reorg). -/
def envReorgW : PassEnv :=
  { escrowChain := chainFailedW, forwardChain := chainPendingW,
    broadcast := .notConfigured }

/-- Claim C4 counterexample: the serverless handler has no terminal-status
skip; a pass over an already-`completed` record whose escrow hash now
classifies as failed moves the record from `completed` back to `failed`. -/
theorem C4_counterexample :
    txDoneW.status = .completed ∧
    (stepVerify envReorgW 45 txDoneW).1.status = .failed := by
  decide

/-- Claim C4 (amended): along any pass, the status never moves backward along
`pending < verified < forwarding_pending < completed`; the only other
transition is to `failed`, which in the serverless variant is possible from
ANY status — including from `completed`, when a late escrow classification
reports failure — and `failed` itself is absorbing.  The file-backed worker
additionally skips records that are already `completed` or `failed`, leaving
them untouched. -/
theorem C4_monotonic :
    (∀ (env : PassEnv) (now : Nat) (tx : TxRecord),
      (stepVerify env now tx).1.status = .failed ∨
      statusRank tx.status ≤ statusRank (stepVerify env now tx).1.status) ∧
    (∀ (env : PassEnv) (now : Nat) (tx : TxRecord), tx.status = .failed →
      (stepVerify env now tx).1.status = .failed) ∧
    (∀ (env : SPassEnv) (now : Nat) (s : STxRecord),
      s.status = .completed ∨ s.status = .failed →
      stepServer env now s =
        (s, { classified := [], sendInvoked := false, sentValue := none })) ∧
    (∀ (env : SPassEnv) (now : Nat) (s : STxRecord),
      (stepServer env now s).1.status = .failed ∨
      statusRank s.status ≤ statusRank (stepServer env now s).1.status) := by
  refine ⟨?_, ?_, stepServer_of_terminal, ?_⟩
  · intro env now tx
    rcases stepVerify_status_cases env now tx with
      h | h | ⟨hp, h | h | h⟩ | ⟨hp, h | h⟩ | ⟨hp, h⟩ <;>
      rw [h] <;> first
        | exact Or.inl rfl
        | (right; rw [hp]; decide)
        | exact Or.inr le_rfl
  · intro env now tx hf
    rcases stepVerify_status_cases env now tx with
      h | h | ⟨hp, _⟩ | ⟨hp, _⟩ | ⟨hp, _⟩
    · rw [h, hf]
    · exact h
    · rw [hp] at hf
      exact absurd hf (by simp)
    · rw [hp] at hf
      exact absurd hf (by simp)
    · rw [hp] at hf
      exact absurd hf (by simp)
  · intro env now s
    rcases stepServer_status_cases env now s with
      h | h | ⟨hp, h | h⟩ | ⟨hp, h⟩ <;>
      rw [h] <;> first
        | exact Or.inl rfl
        | (right; rw [hp]; decide)
        | exact Or.inr le_rfl

/-- A failed serverless record within its retention window. -/
def txFailedW : TxRecord :=
  { id := "tx_f", senderAddress := "0xA", destinationAddress := "0xB",
    amount := 1, escrowTxHash := "0xE1", status := .failed,
    error := some "Escrow transaction failed on blockchain",
    failedAt := some 40 }

/-- A completed legacy record. -/
def sDoneW : STxRecord :=
  { id := "s_d", senderAddress := "0xA", destinationAddress := "0xB",
    amount := 1, feeTxHash := "0xFee", mainTxHash := "0xMain",
    finalTxHash := some "0xF3", status := .completed,
    completedAt := some 40 }

theorem C4_witness :
    ((stepVerify envCompleteW 51 txPendW).1.status = .failed ∨
      statusRank txPendW.status ≤
        statusRank (stepVerify envCompleteW 51 txPendW).1.status) ∧
    (stepVerify envReorgW 45 txFailedW).1.status = .failed ∧
    stepServer envSendW 52 sDoneW =
      (sDoneW, { classified := [], sendInvoked := false, sentValue := none }) :=
  ⟨C4_monotonic.1 envCompleteW 51 txPendW,
   C4_monotonic.2.1 envReorgW 45 txFailedW rfl,
   C4_monotonic.2.2.1 envSendW 52 sDoneW (Or.inl rfl)⟩

/-! ## Helper lemmas for the at-most-once-forward analysis (C3) -/

theorem step2_invoked_guard {b : Broadcast} {now : Nat} {s : TxRecord}
    (hi : (step2 b now s).2.1 = true) :
    s.status = .verified ∧ s.forwardTxHash = none := by
  rcases step2_cases b now s with ⟨hg, he⟩ | ⟨h1, h2, _⟩
  · rw [he] at hi
    exact absurd hi (by simp)
  · exact ⟨h1, h2⟩

theorem step3_keep (c : ChainView) (now : Nat) (s : TxRecord)
    (hs : s.status ≠ .forwardingPending) :
    (step3 c now s).1 = s ∧ (step3 c now s).2.2 = [] := by
  rcases Option.eq_none_or_eq_some s.forwardTxHash with h | ⟨x, h⟩
  · rw [step3_of_none c now s h]
    exact ⟨rfl, rfl⟩
  · rw [step3_of_notFwdPending c now s h hs]
    exact ⟨rfl, rfl⟩

theorem stepVerify_invoked_entry (env : PassEnv) (now : Nat) (tx : TxRecord)
    (hi : (stepVerify env now tx).2.forwardInvoked = true) :
    tx.forwardTxHash = none ∧
    (tx.status = .verified ∨ (tx.status = .pending ∧
      (verifyTransaction env.escrowChain tx.escrowTxHash).isVerified = true)) := by
  rw [stepVerify_expand] at hi
  dsimp only at hi
  have hg := step2_invoked_guard hi
  obtain ⟨p1a, p1h, p1f, p1k, p1e⟩ :=
    step1_preserves (verifyTransaction env.escrowChain tx.escrowTxHash) now tx
  refine ⟨by rw [← p1h]; exact hg.2, ?_⟩
  rcases step1_cases (verifyTransaction env.escrowChain tx.escrowTxHash) now tx
    with ⟨hf1, he1⟩ | ⟨hf1, hv1, hp1, he1⟩ | ⟨hf1, hnvp, he1⟩
  · have hst := hg.1
    rw [he1] at hst
    exact absurd hst (by simp)
  · exact Or.inr ⟨hp1, hv1⟩
  · have hst := hg.1
    rw [he1] at hst
    exact Or.inl hst

theorem stepVerify_invoked_post (env : PassEnv) (now : Nat) (tx : TxRecord)
    (hi : (stepVerify env now tx).2.forwardInvoked = true) :
    (stepVerify env now tx).1.forwardTxHash ≠ none ∨
    (stepVerify env now tx).1.status = .failed := by
  rw [stepVerify_expand] at hi ⊢
  dsimp only at hi ⊢
  obtain ⟨q1a, q1h, q1f, q1k, q1e⟩ :=
    step3_preserves env.forwardChain now
      (step2 env.broadcast now
        (step1 (verifyTransaction env.escrowChain tx.escrowTxHash) now tx).1).1
  rcases step2_cases env.broadcast now
      (step1 (verifyTransaction env.escrowChain tx.escrowTxHash) now tx).1 with
    ⟨hg, he2⟩ | ⟨h1, h2, ⟨hb, hbe, he2⟩ | ⟨e, he2⟩⟩
  · rw [he2] at hi
    exact absurd hi (by simp)
  · left
    rw [q1h, he2]
    simp
  · right
    obtain ⟨hkeep, -⟩ := step3_keep env.forwardChain now
      (step2 env.broadcast now
        (step1 (verifyTransaction env.escrowChain tx.escrowTxHash) now tx).1).1
      (by rw [he2]; simp)
    rw [hkeep, he2]

theorem stepVerify_failed_keep (env : PassEnv) (now : Nat) (tx : TxRecord)
    (hf : tx.status = .failed) :
    (stepVerify env now tx).2.forwardInvoked = false ∧
    (stepVerify env now tx).1.status = .failed := by
  constructor
  · cases hinv : (stepVerify env now tx).2.forwardInvoked with
    | false => rfl
    | true =>
      rcases (stepVerify_invoked_entry env now tx hinv).2 with h | ⟨h, -⟩ <;>
        rw [hf] at h <;> exact absurd h (by simp)
  · rcases stepVerify_status_cases env now tx with
      h | h | ⟨hp, -⟩ | ⟨hp, -⟩ | ⟨hp, -⟩
    · rw [h, hf]
    · exact h
    · rw [hp] at hf
      exact absurd hf (by simp)
    · rw [hp] at hf
      exact absurd hf (by simp)
    · rw [hp] at hf
      exact absurd hf (by simp)

theorem runVerify_count_zero :
    ∀ (trace : List (PassEnv × Nat)) (tx : TxRecord),
    (tx.forwardTxHash ≠ none ∨ tx.status = .failed) →
    ((runVerify tx trace).2.countP (fun l => l.forwardInvoked)) = 0 := by
  intro trace
  induction trace with
  | nil =>
    intro tx _
    rw [runVerify_nil]
    rfl
  | cons p rest ih =>
    obtain ⟨env, now⟩ := p
    intro tx hcond
    have hstep : (stepVerify env now tx).2.forwardInvoked = false ∧
        ((stepVerify env now tx).1.forwardTxHash ≠ none ∨
          (stepVerify env now tx).1.status = .failed) := by
      rcases hcond with h | h
      · rcases Option.eq_none_or_eq_some tx.forwardTxHash with hn | ⟨x, hx⟩
        · exact absurd hn h
        · obtain ⟨f1, -, -, -, f5⟩ := stepVerify_frozen env now tx hx
          exact ⟨f5, Or.inl (by rw [f1]; simp)⟩
      · obtain ⟨f1, f2⟩ := stepVerify_failed_keep env now tx h
        exact ⟨f1, Or.inr f2⟩
    rw [runVerify_cons]
    dsimp only
    rw [List.countP_cons]
    simp only [hstep.1]
    simp [ih _ hstep.2]

theorem runVerify_count_le_one :
    ∀ (trace : List (PassEnv × Nat)) (tx : TxRecord),
    ((runVerify tx trace).2.countP (fun l => l.forwardInvoked)) ≤ 1 := by
  intro trace
  induction trace with
  | nil =>
    intro tx
    rw [runVerify_nil]
    simp
  | cons p rest ih =>
    obtain ⟨env, now⟩ := p
    intro tx
    rw [runVerify_cons]
    dsimp only
    rw [List.countP_cons]
    cases hinv : (stepVerify env now tx).2.forwardInvoked with
    | false =>
      simpa [hinv] using ih (stepVerify env now tx).1
    | true =>
      have hz := runVerify_count_zero rest (stepVerify env now tx).1
        (stepVerify_invoked_post env now tx hinv)
      simp [hinv, hz]

theorem runVerify_hash_frozen :
    ∀ (trace : List (PassEnv × Nat)) (tx : TxRecord) (h : String),
    tx.forwardTxHash = some h →
    (runVerify tx trace).1.forwardTxHash = some h := by
  intro trace
  induction trace with
  | nil =>
    intro tx h hh
    rw [runVerify_nil]
    exact hh
  | cons p rest ih =>
    obtain ⟨env, now⟩ := p
    intro tx h hh
    rw [runVerify_cons]
    dsimp only
    exact ih _ h (stepVerify_frozen env now tx hh).1

theorem runServer_nil (s : STxRecord) : runServer s [] = (s, []) := rfl

theorem runServer_cons (env : SPassEnv) (now : Nat) (s : STxRecord)
    (rest : List (SPassEnv × Nat)) :
    runServer s ((env, now) :: rest) =
      ((runServer (stepServer env now s).1 rest).1,
       (stepServer env now s).2 :: (runServer (stepServer env now s).1 rest).2) :=
  rfl

theorem stepServer_invoked_entry (env : SPassEnv) (now : Nat) (s : STxRecord) :
    (stepServer env now s).2.sendInvoked = true →
    s.finalTxHash = none ∧ (s.status = .pending ∨ s.status = .verified) := by
  unfold stepServer
  split
  · intro hi
    exact absurd hi (by simp)
  · dsimp only
    split
    · split
      · rename_i hp
        split
        · rename_i hg
          intro _
          exact ⟨hg.2, Or.inl hp⟩
        · intro hi
          exact absurd hi (by simp)
      · split
        · rename_i hg
          intro _
          exact ⟨hg.2, Or.inr hg.1⟩
        · intro hi
          exact absurd hi (by simp)
    · split
      · intro hi
        exact absurd hi (by simp)
      · intro hi
        exact absurd hi (by simp)

theorem stepServer_invoked_post (env : SPassEnv) (now : Nat) (s : STxRecord) :
    (stepServer env now s).2.sendInvoked = true →
    (stepServer env now s).1.status = .completed ∨
    (stepServer env now s).1.status = .failed := by
  unfold stepServer
  split
  · intro hi
    exact absurd hi (by simp)
  · dsimp only
    split
    · split <;> split
      · split
        · intro _
          exact Or.inl rfl
        · intro _
          exact Or.inr rfl
      · intro hi
        exact absurd hi (by simp)
      · split
        · intro _
          exact Or.inl rfl
        · intro _
          exact Or.inr rfl
      · intro hi
        exact absurd hi (by simp)
    · split
      · intro hi
        exact absurd hi (by simp)
      · intro hi
        exact absurd hi (by simp)

theorem stepServer_final_preserved (env : SPassEnv) (now : Nat)
    (s : STxRecord) (h : String) : s.finalTxHash = some h →
    (stepServer env now s).1.finalTxHash = some h := by
  unfold stepServer
  split
  · intro hh
    exact hh
  · dsimp only
    split
    · split <;> split
      · rename_i hg
        intro hh
        have hg2 : s.finalTxHash = none := hg.2
        rw [hh] at hg2
        exact absurd hg2 (by simp)
      · intro hh
        exact hh
      · rename_i hg
        intro hh
        have hg2 : s.finalTxHash = none := hg.2
        rw [hh] at hg2
        exact absurd hg2 (by simp)
      · intro hh
        exact hh
    · split
      · intro hh
        exact hh
      · intro hh
        exact hh

theorem runServer_count_zero :
    ∀ (trace : List (SPassEnv × Nat)) (s : STxRecord),
    (s.status = .completed ∨ s.status = .failed) →
    ((runServer s trace).2.countP (fun l => l.sendInvoked)) = 0 := by
  intro trace
  induction trace with
  | nil =>
    intro s _
    rw [runServer_nil]
    rfl
  | cons p rest ih =>
    obtain ⟨env, now⟩ := p
    intro s hterm
    rw [runServer_cons]
    dsimp only
    rw [stepServer_of_terminal env now s hterm]
    rw [List.countP_cons]
    simpa using ih s hterm

theorem runServer_count_le_one :
    ∀ (trace : List (SPassEnv × Nat)) (s : STxRecord),
    ((runServer s trace).2.countP (fun l => l.sendInvoked)) ≤ 1 := by
  intro trace
  induction trace with
  | nil =>
    intro s
    rw [runServer_nil]
    simp
  | cons p rest ih =>
    obtain ⟨env, now⟩ := p
    intro s
    rw [runServer_cons]
    dsimp only
    rw [List.countP_cons]
    cases hinv : (stepServer env now s).2.sendInvoked with
    | false =>
      simpa [hinv] using ih (stepServer env now s).1
    | true =>
      have hz := runServer_count_zero rest (stepServer env now s).1
        (stepServer_invoked_post env now s hinv)
      simp [hinv, hz]

theorem runServer_final_frozen :
    ∀ (trace : List (SPassEnv × Nat)) (s : STxRecord) (h : String),
    s.finalTxHash = some h → (runServer s trace).1.finalTxHash = some h := by
  intro trace
  induction trace with
  | nil =>
    intro s h hh
    rw [runServer_nil]
    exact hh
  | cons p rest ih =>
    obtain ⟨env, now⟩ := p
    intro s h hh
    rw [runServer_cons]
    dsimp only
    exact ih _ h (stepServer_final_preserved env now s h hh)

/-- Claim C3: in both variants the forwarder is invoked at most once per
transaction over any sequence of passes: it is invoked only when the status
is `verified` (possibly promoted in the same pass from a `pending` record
whose escrow hash verified) while the forward hash field (`forwardTxHash`,
or `finalTxHash` in the legacy variant) is still unset, and once that field
is set no pass ever overwrites it. -/
theorem C3_forward_at_most_once :
    (∀ (env : PassEnv) (now : Nat) (tx : TxRecord),
      (stepVerify env now tx).2.forwardInvoked = true →
      tx.forwardTxHash = none ∧
      (tx.status = .verified ∨ (tx.status = .pending ∧
        (verifyTransaction env.escrowChain tx.escrowTxHash).isVerified = true))) ∧
    (∀ (trace : List (PassEnv × Nat)) (tx : TxRecord),
      ((runVerify tx trace).2.countP (fun l => l.forwardInvoked)) ≤ 1) ∧
    (∀ (trace : List (PassEnv × Nat)) (tx : TxRecord) (h : String),
      tx.forwardTxHash = some h →
      (runVerify tx trace).1.forwardTxHash = some h) ∧
    (∀ (env : SPassEnv) (now : Nat) (s : STxRecord),
      (stepServer env now s).2.sendInvoked = true →
      s.finalTxHash = none ∧ (s.status = .pending ∨ s.status = .verified)) ∧
    (∀ (trace : List (SPassEnv × Nat)) (s : STxRecord),
      ((runServer s trace).2.countP (fun l => l.sendInvoked)) ≤ 1) ∧
    (∀ (trace : List (SPassEnv × Nat)) (s : STxRecord) (h : String),
      s.finalTxHash = some h →
      (runServer s trace).1.finalTxHash = some h) :=
  ⟨stepVerify_invoked_entry, runVerify_count_le_one, runVerify_hash_frozen,
   stepServer_invoked_entry, runServer_count_le_one, runServer_final_frozen⟩

theorem C3_witness :
    (txPendW.forwardTxHash = none ∧
      (txPendW.status = .verified ∨ (txPendW.status = .pending ∧
        (verifyTransaction envCompleteW.escrowChain
          txPendW.escrowTxHash).isVerified = true))) ∧
    (runVerify txDoneW [(envReorgW, 45)]).1.forwardTxHash = some "0xF1" ∧
    (sPendW.finalTxHash = none ∧
      (sPendW.status = .pending ∨ sPendW.status = .verified)) ∧
    (runServer sDoneW [(envSendW, 52)]).1.finalTxHash = some "0xF3" :=
  ⟨C3_forward_at_most_once.1 envCompleteW 51 txPendW (by decide),
   C3_forward_at_most_once.2.2.1 [(envReorgW, 45)] txDoneW "0xF1" rfl,
   C3_forward_at_most_once.2.2.2.1 envSendW 9 sPendW (by decide),
   C3_forward_at_most_once.2.2.2.2.2 [(envSendW, 52)] sDoneW "0xF3" rfl⟩

/-! ## Helper lemmas for the dual-verification analysis (C1) -/

theorem stepVerify_log_escrow (env : PassEnv) (now : Nat) (tx : TxRecord) :
    (stepVerify env now tx).2.escrowResult =
      verifyTransaction env.escrowChain tx.escrowTxHash := rfl

/-- A pass can only move a record into the
`verified`/`forwarding_pending`/`completed` range when it was already there
or when the escrow hash classified `verified` (with the 3-confirmation
threshold) during this pass. -/
theorem stepVerify_inS (env : PassEnv) (now : Nat) (tx : TxRecord)
    (hS : (stepVerify env now tx).1.status = .verified ∨
      (stepVerify env now tx).1.status = .forwardingPending ∨
      (stepVerify env now tx).1.status = .completed) :
    (tx.status = .verified ∨ tx.status = .forwardingPending ∨
      tx.status = .completed) ∨
    (∃ n r, (stepVerify env now tx).2.escrowResult = .verified n r ∧
      VERIFICATION_CONFIRMATIONS ≤ n) := by
  rw [stepVerify_expand] at hS ⊢
  dsimp only at hS ⊢
  rcases step1_cases (verifyTransaction env.escrowChain tx.escrowTxHash) now tx
    with ⟨hf1, he1⟩ | ⟨hf1, hv1, hp1, he1⟩ | ⟨hf1, hnvp, he1⟩
  · -- escrow failed: the record ends failed, contradicting hS
    rcases step2_cases env.broadcast now
        (step1 (verifyTransaction env.escrowChain tx.escrowTxHash) now tx).1 with
      ⟨hg, he2⟩ | ⟨hg1, hg2, -⟩
    · obtain ⟨hkeep, -⟩ := step3_keep env.forwardChain now
        (step2 env.broadcast now
          (step1 (verifyTransaction env.escrowChain tx.escrowTxHash) now tx).1).1
        (by rw [he2, he1]; simp)
      rw [hkeep, he2, he1] at hS
      simp at hS
    · rw [he1] at hg1
      simp at hg1
  · -- escrow verified while pending
    right
    obtain ⟨n, r, hnr⟩ := VerifyResult.isVerified_iff.mp hv1
    exact ⟨n, r, hnr, verifyTransaction_verified_threshold hnr⟩
  · -- step 1 left the record alone
    left
    rcases step2_cases env.broadcast now
        (step1 (verifyTransaction env.escrowChain tx.escrowTxHash) now tx).1 with
      ⟨hg, he2⟩ | ⟨hg1, hg2, -⟩
    · rcases step3_cases env.forwardChain now
          (step2 env.broadcast now
            (step1 (verifyTransaction env.escrowChain tx.escrowTxHash) now tx).1).1
        with ⟨hcond3, he3⟩ | ⟨h3, hh3, hst3, -⟩
      · rw [he3, he2, he1] at hS
        exact hS
      · rw [he2, he1] at hst3
        exact Or.inr (Or.inl hst3)
    · rw [he1] at hg1
      exact Or.inl hg1

/-- A pass can only end on `completed` when the record already was
`completed` or when the forward hash classified `verified` (with the
3-confirmation threshold) during this pass. -/
theorem stepVerify_completed (env : PassEnv) (now : Nat) (tx : TxRecord)
    (hc : (stepVerify env now tx).1.status = .completed) :
    tx.status = .completed ∨
    (∃ v n r, (stepVerify env now tx).2.forwardResult = some v ∧
      v = .verified n r ∧ VERIFICATION_CONFIRMATIONS ≤ n) := by
  rw [stepVerify_expand] at hc ⊢
  dsimp only at hc ⊢
  rcases step3_cases env.forwardChain now
      (step2 env.broadcast now
        (step1 (verifyTransaction env.escrowChain tx.escrowTxHash) now tx).1).1
    with ⟨hcond3, he3⟩ | ⟨h3, hh3, hst3, ⟨hv3, he3⟩ | ⟨hv3, he3⟩ | ⟨hv3, hf3, he3⟩⟩
  · -- STEP 3 did nothing: completed must predate the pass
    left
    rw [he3] at hc
    dsimp only at hc
    rcases step2_cases env.broadcast now
        (step1 (verifyTransaction env.escrowChain tx.escrowTxHash) now tx).1 with
      ⟨hg, he2⟩ | ⟨hg1, hg2, ⟨hb, hbe, he2⟩ | ⟨e, he2⟩⟩ <;> rw [he2] at hc <;>
      dsimp only at hc
    · rcases step1_cases (verifyTransaction env.escrowChain tx.escrowTxHash)
          now tx with ⟨hf1, he1⟩ | ⟨hf1, hv1, hp1, he1⟩ | ⟨hf1, hnvp, he1⟩ <;>
        rw [he1] at hc <;> simp at hc
      exact hc
    · simp at hc
    · simp at hc
  · -- forward classified verified in this pass
    right
    obtain ⟨n, r, hnr⟩ := VerifyResult.isVerified_iff.mp hv3
    refine ⟨verifyTransaction env.forwardChain h3, n, r, ?_, hnr,
      verifyTransaction_verified_threshold hnr⟩
    rw [he3]
  · rw [he3] at hc
    simp at hc
  · rw [he3] at hc
    dsimp only at hc
    rw [hc] at hst3
    simp at hst3

theorem runVerify_escrow_ev :
    ∀ (trace : List (PassEnv × Nat)) (tx : TxRecord),
    ((runVerify tx trace).1.status = .verified ∨
      (runVerify tx trace).1.status = .forwardingPending ∨
      (runVerify tx trace).1.status = .completed) →
    (tx.status = .verified ∨ tx.status = .forwardingPending ∨
      tx.status = .completed) ∨
    (∃ l ∈ (runVerify tx trace).2, ∃ n r, l.escrowResult = .verified n r ∧
      VERIFICATION_CONFIRMATIONS ≤ n) := by
  intro trace
  induction trace with
  | nil =>
    intro tx hS
    rw [runVerify_nil] at hS
    exact Or.inl hS
  | cons p rest ih =>
    obtain ⟨env, now⟩ := p
    intro tx hS
    rw [runVerify_cons] at hS ⊢
    dsimp only at hS ⊢
    rcases ih (stepVerify env now tx).1 hS with hmid | ⟨l, hl, hev⟩
    · rcases stepVerify_inS env now tx hmid with h0 | ⟨n, r, hnr, hn⟩
      · exact Or.inl h0
      · exact Or.inr ⟨(stepVerify env now tx).2, List.mem_cons_self _ _,
          n, r, hnr, hn⟩
    · exact Or.inr ⟨l, List.mem_cons_of_mem _ hl, hev⟩

theorem runVerify_completed_ev :
    ∀ (trace : List (PassEnv × Nat)) (tx : TxRecord),
    (runVerify tx trace).1.status = .completed →
    tx.status = .completed ∨
    (∃ l ∈ (runVerify tx trace).2, ∃ v n r, l.forwardResult = some v ∧
      v = .verified n r ∧ VERIFICATION_CONFIRMATIONS ≤ n) := by
  intro trace
  induction trace with
  | nil =>
    intro tx hc
    rw [runVerify_nil] at hc
    exact Or.inl hc
  | cons p rest ih =>
    obtain ⟨env, now⟩ := p
    intro tx hc
    rw [runVerify_cons] at hc ⊢
    dsimp only at hc ⊢
    rcases ih (stepVerify env now tx).1 hc with hmid | ⟨l, hl, hev⟩
    · rcases stepVerify_completed env now tx hmid with h0 | ⟨v, n, r, hv, hnr, hn⟩
      · exact Or.inl h0
      · exact Or.inr ⟨(stepVerify env now tx).2, List.mem_cons_self _ _,
          v, n, r, hv, hnr, hn⟩
    · exact Or.inr ⟨l, List.mem_cons_of_mem _ hl, hev⟩

/-! ## Theorems: completion requires dual verification (C1) -/

/-- Claim C1 counterexample: the legacy worker completes a transaction in the
very pass that broadcasts the forward transfer — the final hash `0xF3` is
assigned and the record marked `completed` although no classification of
`0xF3` was ever performed (the pass only classified the fee and main
hashes), so completion did not wait for the forward hash to reach any
confirmation threshold. -/
theorem C1_counterexample :
    (runServer sPendW [(envSendW, 9)]).1.status = .completed ∧
    (runServer sPendW [(envSendW, 9)]).1.finalTxHash = some "0xF3" ∧
    (∀ l ∈ (runServer sPendW [(envSendW, 9)]).2, ∀ e ∈ l.classified,
      e.1 ≠ "0xF3") := by
  decide

/-- Claim C1 (amended): in the serverless variant, a record starting from
`pending` can only reach `completed` after some pass classified its escrow
hash `verified` (n ≥ 3 confirmations) and some pass classified the forward
hash `verified` (n ≥ 3); the legacy variant instead marks `completed` on
broadcast success alone, never classifying the forward hash
(counterexample). -/
theorem C1_dual_verification (trace : List (PassEnv × Nat)) (tx0 : TxRecord)
    (hp : tx0.status = .pending)
    (hc : (runVerify tx0 trace).1.status = .completed) :
    (∃ l ∈ (runVerify tx0 trace).2, ∃ n r, l.escrowResult = .verified n r ∧
      VERIFICATION_CONFIRMATIONS ≤ n) ∧
    (∃ l ∈ (runVerify tx0 trace).2, ∃ v n r, l.forwardResult = some v ∧
      v = .verified n r ∧ VERIFICATION_CONFIRMATIONS ≤ n) := by
  constructor
  · rcases runVerify_escrow_ev trace tx0 (Or.inr (Or.inr hc)) with h0 | hev
    · rcases h0 with h | h | h <;> rw [hp] at h <;> exact absurd h (by simp)
    · exact hev
  · rcases runVerify_completed_ev trace tx0 hc with h0 | hev
    · rw [hp] at h0
      exact absurd h0 (by simp)
    · exact hev

theorem C1_witness :
    (∃ l ∈ (runVerify txPendW [(envCompleteW, 51)]).2, ∃ n r,
      l.escrowResult = .verified n r ∧ VERIFICATION_CONFIRMATIONS ≤ n) ∧
    (∃ l ∈ (runVerify txPendW [(envCompleteW, 51)]).2, ∃ v n r,
      l.forwardResult = some v ∧ v = .verified n r ∧
      VERIFICATION_CONFIRMATIONS ≤ n) :=
  C1_dual_verification [(envCompleteW, 51)] txPendW rfl (by decide)

end MetaMask
